import Mathlib

set_option maxHeartbeats 1600000
set_option maxRecDepth 100000

/-!
Shallow embedding of the MP3 gain-adjustment engine (`src/mp3.rs`) of the
`headroom` repository, together with proofs of the specification claims.

Byte buffers are modelled as `List Nat` whose elements are below 256; `u8`
arithmetic that truncates in Rust (`as u8`, `<<` on `u8`) is modelled with
explicit `% 256`, and `i32` values are modelled as `Int` with explicit
two's-complement wrapping where Rust release builds wrap.
-/

/-- MPEG version (`enum MpegVersion`). -/
inductive MpegVersion where
  | Mpeg1
  | Mpeg2
  | Mpeg25
deriving DecidableEq, Repr

/-- Channel mode (`enum ChannelMode`). -/
inductive ChannelMode where
  | Stereo
  | JointStereo
  | DualChannel
  | Mono
deriving DecidableEq, Repr

/-- `ChannelMode::channel_count`. -/
def ChannelMode.channel_count : ChannelMode → Nat
  | .Mono => 1
  | _ => 2

/-- Parsed MP3 frame header (`struct FrameHeader`). -/
structure FrameHeader where
  version : MpegVersion
  layer : Nat
  has_crc : Bool
  bitrate_kbps : Nat
  sample_rate : Nat
  padding : Bool
  channel_mode : ChannelMode
  frame_size : Nat
deriving DecidableEq, Repr

/-- `FrameHeader::granule_count`: number of granules per frame. -/
def FrameHeader.granule_count (h : FrameHeader) : Nat :=
  match h.version with
  | .Mpeg1 => 2
  | _ => 1

/-- `FrameHeader::side_info_offset`: offset from frame start to side information. -/
def FrameHeader.side_info_offset (h : FrameHeader) : Nat :=
  if h.has_crc then 6 else 4

/-- Bitrate table for MPEG1 Layer III (`BITRATE_TABLE_MPEG1_L3`). -/
def BITRATE_TABLE_MPEG1_L3 : List Nat :=
  [0, 32, 40, 48, 56, 64, 80, 96, 112, 128, 160, 192, 224, 256, 320]

/-- Bitrate table for MPEG2/2.5 Layer III (`BITRATE_TABLE_MPEG2_L3`). -/
def BITRATE_TABLE_MPEG2_L3 : List Nat :=
  [0, 8, 16, 24, 32, 40, 48, 56, 64, 80, 96, 112, 128, 144, 160]

/-- Sample rate table (`SAMPLE_RATE_TABLE`), rows keyed by version. -/
def SAMPLE_RATE_TABLE : List (List Nat) :=
  [[44100, 48000, 32000], [22050, 24000, 16000], [11025, 12000, 8000]]

/-- The version match inside `parse_header` (bits 4-3 of byte 1; `0b01` reserved). -/
def parse_version (b1 : Nat) : Option MpegVersion :=
  match (b1 >>> 3) &&& 3 with
  | 0 => some .Mpeg25
  | 2 => some .Mpeg2
  | 3 => some .Mpeg1
  | _ => none

/-- The layer match inside `parse_header` (bits 2-1 of byte 1; `0b00` reserved). -/
def parse_layer (b1 : Nat) : Option Nat :=
  match (b1 >>> 1) &&& 3 with
  | 1 => some 3
  | 2 => some 2
  | 3 => some 1
  | _ => none

/-- `parse_header`: parse a 4-byte frame header, `none` on any rejecting check. -/
def parse_header (header : List Nat) : Option FrameHeader :=
  if header.length < 4 then none
  else if header.getD 0 0 ≠ 255 ∨ header.getD 1 0 &&& 224 ≠ 224 then none
  else
    match parse_version (header.getD 1 0) with
    | none => none
    | some version =>
      match parse_layer (header.getD 1 0) with
      | none => none
      | some layer =>
        if layer ≠ 3 then none
        else
          let has_crc := header.getD 1 0 &&& 1 == 0
          let bitrate_index := (header.getD 2 0 >>> 4) &&& 15
          if bitrate_index = 0 ∨ bitrate_index = 15 then none
          else
            let bitrate_kbps :=
              match version with
              | .Mpeg1 => BITRATE_TABLE_MPEG1_L3.getD bitrate_index 0
              | _ => BITRATE_TABLE_MPEG2_L3.getD bitrate_index 0
            let sr_index := (header.getD 2 0 >>> 2) &&& 3
            if sr_index = 3 then none
            else
              let version_index :=
                match version with
                | .Mpeg1 => 0
                | .Mpeg2 => 1
                | .Mpeg25 => 2
              let sample_rate := (SAMPLE_RATE_TABLE.getD version_index []).getD sr_index 0
              let padding := header.getD 2 0 &&& 2 != 0
              let channel_mode :=
                match (header.getD 3 0 >>> 6) &&& 3 with
                | 0 => ChannelMode.Stereo
                | 1 => ChannelMode.JointStereo
                | 2 => ChannelMode.DualChannel
                | _ => ChannelMode.Mono
              let samples_per_frame :=
                match version with
                | .Mpeg1 => 1152
                | _ => 576
              let padding_size := if padding then 1 else 0
              let frame_size :=
                samples_per_frame * bitrate_kbps * 125 / sample_rate + padding_size
              some { version, layer, has_crc, bitrate_kbps, sample_rate, padding,
                     channel_mode, frame_size }

/-- Location of a `global_gain` field within the file (`struct GainLocation`). -/
structure GainLocation where
  byte_offset : Nat
  bit_offset : Nat
deriving DecidableEq, Repr

/-- `calculate_gain_locations`: bit-exact locations of every `global_gain`
field inside a frame's side information. -/
def calculate_gain_locations (frame_offset : Nat) (header : FrameHeader) :
    List GainLocation :=
  let side_info_start := frame_offset + header.side_info_offset
  let num_channels := header.channel_mode.channel_count
  let num_granules := header.granule_count
  let bits_before_granules :=
    match header.version, num_channels with
    | .Mpeg1, 1 => 18
    | .Mpeg1, _ => 20
    | _, 1 => 9
    | _, _ => 10
  let bits_per_granule_channel :=
    match header.version with
    | .Mpeg1 => 59
    | _ => 63
  (List.range num_granules).flatMap (fun gr =>
    (List.range num_channels).map (fun ch =>
      let granule_start_bit :=
        bits_before_granules + (gr * num_channels + ch) * bits_per_granule_channel
      let global_gain_bit := granule_start_bit + 21
      { byte_offset := side_info_start + global_gain_bit / 8
        bit_offset := global_gain_bit % 8 }))

/-- `read_gain_at`: read an 8-bit value at a bit-unaligned position. -/
def read_gain_at (data : List Nat) (loc : GainLocation) : Nat :=
  let idx := loc.byte_offset
  if data.length ≤ idx then 0
  else if loc.bit_offset = 0 then data.getD idx 0
  else if idx + 1 < data.length then
    let shift := loc.bit_offset
    let high := (data.getD idx 0 <<< shift) % 256
    let low := data.getD (idx + 1) 0 >>> (8 - shift)
    high ||| low
  else
    (data.getD idx 0 <<< loc.bit_offset) % 256

/-- `write_gain_at`: write an 8-bit value at a bit-unaligned position. -/
def write_gain_at (data : List Nat) (loc : GainLocation) (value : Nat) : List Nat :=
  let idx := loc.byte_offset
  if data.length ≤ idx then data
  else if loc.bit_offset = 0 then data.set idx value
  else if idx + 1 < data.length then
    let shift := loc.bit_offset
    let mask_high := (255 <<< (8 - shift)) % 256
    let mask_low := 255 >>> shift
    let d1 := data.set idx ((data.getD idx 0 &&& mask_high) ||| (value >>> shift))
    d1.set (idx + 1) ((d1.getD (idx + 1) 0 &&& mask_low) ||| ((value <<< (8 - shift)) % 256))
  else
    let shift := loc.bit_offset
    let mask_high := (255 <<< (8 - shift)) % 256
    data.set idx ((data.getD idx 0 &&& mask_high) ||| (value >>> shift))

/-- `skip_id3v2`: offset of the first audio frame, skipping a leading ID3v2 tag. -/
def skip_id3v2 (data : List Nat) : Nat :=
  if data.length < 10 then 0
  else if ¬(data.getD 0 0 = 73 ∧ data.getD 1 0 = 68 ∧ data.getD 2 0 = 51) then 0
  else
    let size := ((data.getD 6 0 &&& 127) <<< 21) ||| ((data.getD 7 0 &&& 127) <<< 14) |||
      ((data.getD 8 0 &&& 127) <<< 7) ||| (data.getD 9 0 &&& 127)
  10 + size

/-- Truncating cast `i32 as u8` (low 8 bits of the two's-complement value). -/
def u8cast (x : Int) : Nat := (x % 256).toNat

/-- Two's-complement wrapping of an integer into the `i32` range, as performed
by Rust release builds on overflowing `i32` arithmetic such as negation. -/
def i32wrap (x : Int) : Int := (x + 2 ^ 31) % 2 ^ 32 - 2 ^ 31

/-- The per-location gain update of `apply_gain`: saturating add of
`gain_steps.min(255) as u8` for positive steps, saturating subtract of
`(-gain_steps).min(255) as u8` for non-positive steps. -/
def newGain (current_gain : Nat) (gain_steps : Int) : Nat :=
  if 0 < gain_steps then
    min (current_gain + u8cast (min gain_steps 255)) 255
  else
    current_gain - u8cast (min (i32wrap (-gain_steps)) 255)

/-- The inner `for loc in &locations` loop of `apply_gain`: read each gain,
compute the new value, write it back. -/
def processFrame (data : List Nat) (locations : List GainLocation)
    (gain_steps : Int) : List Nat :=
  locations.foldl
    (fun d loc => write_gain_at d loc (newGain (read_gain_at d loc) gain_steps)) data

/-- The frame validation of `apply_gain`: the next frame position must carry a
sync pattern, or the frame must end within the buffer when fewer than 2 bytes
remain there. -/
def frameValid (data : List Nat) (next_pos : Nat) : Bool :=
  if next_pos + 2 ≤ data.length then
    data.getD next_pos 0 == 255 && (data.getD (next_pos + 1) 0 &&& 224) == 224
  else
    decide (next_pos ≤ data.length)

/-- The `while pos + 4 <= file_size` walker of `apply_gain`, with explicit fuel
(the walker advances by at least one byte per iteration, so fuel
`data.length + 1` is never exhausted).  Returns the final buffer and the list
of validated frame start positions. -/
def walkLoop (gain_steps : Int) : Nat → List Nat → Nat → List Nat × List Nat
  | 0, data, _ => (data, [])
  | fuel + 1, data, pos =>
    if pos + 4 ≤ data.length then
      match parse_header (data.drop pos) with
      | none => walkLoop gain_steps fuel data (pos + 1)
      | some header =>
        if frameValid data (pos + header.frame_size) then
          let r := walkLoop gain_steps fuel
            (processFrame data (calculate_gain_locations pos header) gain_steps)
            (pos + header.frame_size)
          (r.1, pos :: r.2)
        else
          walkLoop gain_steps fuel data (pos + 1)
    else
      (data, [])

/-- `apply_gain` (in-memory part): the buffer after one application together
with the number of modified frames.  File I/O is outside the model. -/
def apply_gain (data : List Nat) (gain_steps : Int) : List Nat × Nat :=
  if gain_steps = 0 then (data, 0)
  else
    let r := walkLoop gain_steps (data.length + 1) data (skip_id3v2 data)
    (r.1, r.2.length)

/-- No-saturation checker: `true` iff, along the very walk `apply_gain`
performs, every `global_gain` update stays strictly inside `[0, 255]`
(the saturating add never clips at 255 and the saturating subtract never
clips at 0). -/
def satFreeB (current_gain : Nat) (gain_steps : Int) : Bool :=
  if 0 < gain_steps then
    decide (current_gain + u8cast (min gain_steps 255) ≤ 255)
  else
    decide (u8cast (min (i32wrap (-gain_steps)) 255) ≤ current_gain)

/-- `NoSatB gain_steps fuel data pos`: the walk from `pos` never saturates any
`global_gain` field.  Mirrors `walkLoop` step for step. -/
def NoSatB (gain_steps : Int) : Nat → List Nat → Nat → Bool
  | 0, _, _ => true
  | fuel + 1, data, pos =>
    if pos + 4 ≤ data.length then
      match parse_header (data.drop pos) with
      | none => NoSatB gain_steps fuel data (pos + 1)
      | some header =>
        if frameValid data (pos + header.frame_size) then
          (calculate_gain_locations pos header).all
              (fun loc => satFreeB (read_gain_at data loc) gain_steps) &&
            NoSatB gain_steps fuel
              (processFrame data (calculate_gain_locations pos header) gain_steps)
              (pos + header.frame_size)
        else
          NoSatB gain_steps fuel data (pos + 1)
    else
      true

/-- Modelled from the spec (§4.3): the `bitsBeforeGranules` lookup table, keyed
by version and channel count, as the specification states it. -/
def spec_bits_before_granules : MpegVersion → Nat → Nat := fun v cc =>
  match v, cc with
  | .Mpeg1, 1 => 18
  | .Mpeg1, _ => 20
  | _, 1 => 9
  | _, _ => 10

/-- Modelled from the spec (§4.3): `bitsPerGranuleChannel`, 59 for MPEG1 and 63
for MPEG2/2.5, as the specification states it. -/
def spec_bits_per_granule_channel : MpegVersion → Nat
  | .Mpeg1 => 59
  | _ => 63

/-- A concrete two-frame file: a 128 kbps 44100 Hz MPEG1 stereo frame
(417 bytes) followed by the first 4 bytes of a second frame header. -/
def sampleFile : List Nat :=
  [255, 251, 144, 0] ++ List.replicate 413 0 ++ [255, 251, 144, 0]

/-- The header parsed from bytes `[0xFF, 0xFB, 0x90, 0x00]`. -/
def header417 : FrameHeader :=
  { version := .Mpeg1, layer := 3, has_crc := false, bitrate_kbps := 128,
    sample_rate := 44100, padding := false, channel_mode := .Stereo,
    frame_size := 417 }

/-! ### Bitwise helper lemmas -/

theorem testBit_mul_two_pow_add (a b k j : Nat) (hb : b < 2 ^ k) :
    Nat.testBit (a * 2 ^ k + b) j =
      if j < k then Nat.testBit b j else Nat.testBit a (j - k) := by
  rcases Nat.lt_or_ge j k with hj | hj
  · rw [if_pos hj, Nat.testBit_to_div_mod, Nat.testBit_to_div_mod]
    have hk : a * 2 ^ k = a * 2 ^ (k - j - 1) * 2 * 2 ^ j := by
      rw [Nat.mul_assoc, Nat.mul_assoc, ← Nat.pow_succ', ← Nat.pow_add]
      congr 2
      omega
    rw [hk, Nat.add_comm, Nat.add_mul_div_right _ _ (Nat.two_pow_pos j),
      Nat.add_mul_mod_self_right]
  · rw [if_neg (by omega), Nat.testBit_to_div_mod, Nat.testBit_to_div_mod]
    have h2 : (2 : Nat) ^ j = 2 ^ k * 2 ^ (j - k) := by
      rw [← Nat.pow_add]; congr 1; omega
    rw [h2, ← Nat.div_div_eq_div_mul, Nat.add_comm,
      Nat.add_mul_div_right _ _ (Nat.two_pow_pos k), Nat.div_eq_of_lt hb, Nat.zero_add]

theorem testBit_of_lt_two_pow_le (x j k : Nat) (hx : x < 2 ^ k) (hj : k ≤ j) :
    Nat.testBit x j = false :=
  Nat.testBit_lt_two_pow (lt_of_lt_of_le hx (Nat.pow_le_pow_right (by norm_num) hj))

theorem shiftLeft_lor_eq_add (a b k : Nat) (hb : b < 2 ^ k) :
    a <<< k ||| b = a * 2 ^ k + b := by
  apply Nat.eq_of_testBit_eq
  intro j
  rw [Nat.testBit_or, Nat.testBit_shiftLeft, testBit_mul_two_pow_add a b k j hb]
  rcases Nat.lt_or_ge j k with hj | hj
  · simp [if_pos hj, Nat.not_le.mpr hj]
  · have hbf : Nat.testBit b j = false := testBit_of_lt_two_pow_le b j k hb hj
    rw [if_neg (by omega), hbf, Bool.or_false, decide_eq_true hj, Bool.true_and]

theorem lor_eq_add_pow (k p q : Nat) (hp : p % 2 ^ k = 0) (hq : q < 2 ^ k) :
    p ||| q = p + q := by
  have h : p / 2 ^ k * 2 ^ k = p := Nat.div_mul_cancel (Nat.dvd_of_mod_eq_zero hp)
  calc p ||| q = (p / 2 ^ k) <<< k ||| q := by rw [Nat.shiftLeft_eq, h]
    _ = p / 2 ^ k * 2 ^ k + q := shiftLeft_lor_eq_add _ _ _ hq
    _ = p + q := by rw [h]

theorem and_mask (x t s : Nat) :
    x &&& ((2 ^ t - 1) <<< s) = x / 2 ^ s % 2 ^ t * 2 ^ s := by
  apply Nat.eq_of_testBit_eq
  intro j
  rw [Nat.testBit_and, Nat.testBit_shiftLeft, Nat.testBit_two_pow_sub_one]
  rw [show x / 2 ^ s % 2 ^ t * 2 ^ s = x / 2 ^ s % 2 ^ t * 2 ^ s + 0 from rfl,
    testBit_mul_two_pow_add _ 0 s j (Nat.two_pow_pos s)]
  rcases Nat.lt_or_ge j s with hj | hj
  · simp [if_pos hj, Nat.not_le.mpr hj]
  · rw [if_neg (by omega), Nat.testBit_mod_two_pow,
      ← Nat.shiftRight_eq_div_pow, Nat.testBit_shiftRight,
      show s + (j - s) = j by omega]
    by_cases ht : j - s < t
    · simp [ht, hj]
    · simp [ht]

/-! ### Byte-level facts about the straddling write/read merges -/

theorem byte_wr1 (sh x y : Nat) (hsh : sh ≤ 8) (hx : x < 256) (hy : y < 256) :
    (x &&& ((255 <<< (8 - sh)) % 256)) |||
      ((((x <<< sh) % 256) ||| (y >>> (8 - sh))) >>> sh) = x := by
  apply Nat.eq_of_testBit_eq
  intro j
  rw [show (256 : Nat) = 2 ^ 8 from rfl, show (255 : Nat) = 2 ^ 8 - 1 from rfl]
  simp only [Nat.testBit_or, Nat.testBit_and, Nat.testBit_shiftLeft,
    Nat.testBit_shiftRight, Nat.testBit_mod_two_pow, Nat.testBit_two_pow_sub_one]
  rcases Nat.lt_or_ge j 8 with hj | hj
  · have hy8 : Nat.testBit y (8 - sh + (sh + j)) = false :=
      testBit_of_lt_two_pow_le y (8 - sh + (sh + j)) 8 hy (by omega)
    rw [hy8, Bool.or_false]
    by_cases hcase : 8 - sh ≤ j
    · simp only [decide_eq_true hj, decide_eq_true hcase, Bool.true_and, Bool.and_true]
      by_cases h2 : sh + j < 8
      · simp only [decide_eq_true h2, Bool.true_and, decide_eq_true (show sh ≤ sh + j by omega),
          show sh + j - sh = j by omega]
        cases Nat.testBit x j <;> simp
      · simp only [decide_eq_false (by omega : ¬(sh + j < 8)), Bool.false_and, Bool.and_false,
          Bool.or_false]
        have h3 : j - (8 - sh) < 8 := by omega
        simp [h3]
    · simp only [decide_eq_false (by omega : ¬(8 - sh ≤ j)), Bool.and_false, Bool.false_and,
        Bool.false_or]
      have h2 : sh + j < 8 := by omega
      simp only [decide_eq_true h2, Bool.true_and, decide_eq_true (show sh ≤ sh + j by omega),
        show sh + j - sh = j by omega, decide_eq_true hj]
  · have hxf : Nat.testBit x j = false := testBit_of_lt_two_pow_le x j 8 hx hj
    have hyf : Nat.testBit y (8 - sh + (sh + j)) = false :=
      testBit_of_lt_two_pow_le y (8 - sh + (sh + j)) 8 hy (by omega)
    rw [hxf, hyf]
    simp [decide_eq_false (by omega : ¬(j < 8)), decide_eq_false (by omega : ¬(sh + j < 8))]

theorem byte_wr2 (sh x y : Nat) (hsh : sh ≤ 8) (hy : y < 256) :
    (y &&& (255 >>> sh)) |||
      (((((x <<< sh) % 256) ||| (y >>> (8 - sh))) <<< (8 - sh)) % 256) = y := by
  apply Nat.eq_of_testBit_eq
  intro j
  rw [show (256 : Nat) = 2 ^ 8 from rfl, show (255 : Nat) = 2 ^ 8 - 1 from rfl]
  simp only [Nat.testBit_or, Nat.testBit_and, Nat.testBit_shiftLeft,
    Nat.testBit_shiftRight, Nat.testBit_mod_two_pow, Nat.testBit_two_pow_sub_one]
  rcases Nat.lt_or_ge j 8 with hj | hj
  · by_cases hcase : 8 - sh ≤ j
    · have h1 : ¬(sh + j < 8) := by omega
      have h2 : ¬(sh ≤ j - (8 - sh)) := by omega
      simp only [decide_eq_false h1, Bool.and_false, Bool.false_or,
        decide_eq_true hj, decide_eq_true hcase, Bool.true_and,
        decide_eq_false h2, Bool.false_and, Bool.and_false, Bool.false_or,
        show 8 - sh + (j - (8 - sh)) = j by omega]
    · have h1 : sh + j < 8 := by omega
      simp only [decide_eq_true h1, Bool.and_true, decide_eq_false hcase,
        Bool.false_and, Bool.and_false, Bool.or_false, decide_eq_true hj, Bool.true_and]
  · have hyf : Nat.testBit y j = false := testBit_of_lt_two_pow_le y j 8 hy hj
    simp [hyf, decide_eq_false (by omega : ¬(j < 8))]

theorem byte_rw (sh x y v : Nat) (hsh : sh ≤ 8) (hv : v < 256) :
    ((((x &&& ((255 <<< (8 - sh)) % 256)) ||| (v >>> sh)) <<< sh) % 256) |||
      (((y &&& (255 >>> sh)) ||| ((v <<< (8 - sh)) % 256)) >>> (8 - sh)) = v := by
  apply Nat.eq_of_testBit_eq
  intro j
  rw [show (256 : Nat) = 2 ^ 8 from rfl, show (255 : Nat) = 2 ^ 8 - 1 from rfl]
  simp only [Nat.testBit_or, Nat.testBit_and, Nat.testBit_shiftLeft,
    Nat.testBit_shiftRight, Nat.testBit_mod_two_pow, Nat.testBit_two_pow_sub_one]
  rcases Nat.lt_or_ge j 8 with hj | hj
  · have hyb : ¬(sh + (8 - sh + j) < 8) := by omega
    rcases Nat.lt_or_ge j sh with hcase | hcase
    · have h1 : ¬(sh ≤ j) := by omega
      have h2 : 8 - sh + j < 8 := by omega
      simp only [decide_eq_false h1, Bool.false_and, Bool.and_false, Bool.false_or,
        decide_eq_false hyb, Bool.and_false, decide_eq_true h2, Bool.true_and,
        decide_eq_true (show 8 - sh ≤ 8 - sh + j by omega),
        show 8 - sh + j - (8 - sh) = j by omega]
    · have h2 : ¬(8 - sh + j < 8) := by omega
      have h3 : ¬(8 - sh ≤ j - sh) := by omega
      simp only [decide_eq_true hj, decide_eq_true hcase, Bool.true_and,
        decide_eq_false hyb, Bool.and_false, decide_eq_false h2, Bool.false_and,
        Bool.or_false, decide_eq_false h3, Bool.false_and, Bool.and_false, Bool.false_or,
        show sh + (j - sh) = j by omega]
  · have hvf : Nat.testBit v j = false := testBit_of_lt_two_pow_le v j 8 hv hj
    simp [hvf, decide_eq_false (by omega : ¬(j < 8)),
      decide_eq_false (by omega : ¬(8 - sh + j < 8)),
      decide_eq_false (by omega : ¬(sh + (8 - sh + j) < 8))]

theorem byte_mask1 (sh x v : Nat) (hsh : sh ≤ 8) (hv : v < 256) :
    ((x &&& ((255 <<< (8 - sh)) % 256)) ||| (v >>> sh)) &&& ((255 <<< (8 - sh)) % 256) =
      x &&& ((255 <<< (8 - sh)) % 256) := by
  apply Nat.eq_of_testBit_eq
  intro j
  rw [show (256 : Nat) = 2 ^ 8 from rfl, show (255 : Nat) = 2 ^ 8 - 1 from rfl]
  simp only [Nat.testBit_or, Nat.testBit_and, Nat.testBit_shiftLeft,
    Nat.testBit_shiftRight, Nat.testBit_mod_two_pow, Nat.testBit_two_pow_sub_one]
  by_cases h1 : j < 8
  · by_cases h2 : 8 - sh ≤ j
    · have hvf : Nat.testBit v (sh + j) = false :=
        testBit_of_lt_two_pow_le v (sh + j) 8 hv (by omega)
      simp only [hvf, Bool.or_false]
      cases Nat.testBit x j <;> simp
    · simp only [decide_eq_false h2, Bool.false_and, Bool.and_false, Bool.or_false,
        Bool.false_or]
  · simp [decide_eq_false h1]

theorem byte_mask2 (sh y v : Nat) :
    ((y &&& (255 >>> sh)) ||| ((v <<< (8 - sh)) % 256)) &&& (255 >>> sh) =
      y &&& (255 >>> sh) := by
  apply Nat.eq_of_testBit_eq
  intro j
  rw [show (256 : Nat) = 2 ^ 8 from rfl, show (255 : Nat) = 2 ^ 8 - 1 from rfl]
  simp only [Nat.testBit_or, Nat.testBit_and, Nat.testBit_shiftLeft,
    Nat.testBit_shiftRight, Nat.testBit_mod_two_pow, Nat.testBit_two_pow_sub_one]
  by_cases h1 : sh + j < 8
  · have h2 : ¬(8 ≤ j + sh) := by omega
    cases hb : Nat.testBit y j <;>
      simp [decide_eq_true h1, decide_eq_false h2]
  · simp [decide_eq_false h1]

theorem byte_low1 (sh x v : Nat) (hv : v < 256) :
    ((x &&& ((255 <<< (8 - sh)) % 256)) ||| (v >>> sh)) &&& (255 >>> sh) =
      v >>> sh := by
  apply Nat.eq_of_testBit_eq
  intro j
  rw [show (256 : Nat) = 2 ^ 8 from rfl, show (255 : Nat) = 2 ^ 8 - 1 from rfl]
  simp only [Nat.testBit_or, Nat.testBit_and, Nat.testBit_shiftLeft,
    Nat.testBit_shiftRight, Nat.testBit_mod_two_pow, Nat.testBit_two_pow_sub_one]
  by_cases h1 : sh + j < 8
  · have h2 : ¬(8 ≤ j + sh) := by omega
    simp [decide_eq_true h1, decide_eq_false h2]
  · have hvf : Nat.testBit v (sh + j) = false :=
      testBit_of_lt_two_pow_le v (sh + j) 8 hv (by omega)
    simp [hvf, decide_eq_false h1]

theorem lor_lt_256 (p q : Nat) (hp : p < 256) (hq : q < 256) : p ||| q < 256 := by
  rw [show (256 : Nat) = 2 ^ 8 from rfl] at hp hq ⊢
  exact Nat.or_lt_two_pow hp hq

theorem shiftRight_le_self (x k : Nat) : x >>> k ≤ x := by
  rw [Nat.shiftRight_eq_div_pow]
  exact Nat.div_le_self _ _

theorem wbyte1_lt (sh x v : Nat) (hv : v < 256) :
    (x &&& ((255 <<< (8 - sh)) % 256)) ||| (v >>> sh) < 256 :=
  lor_lt_256 _ _ (lt_of_le_of_lt Nat.and_le_right (Nat.mod_lt _ (by norm_num)))
    (lt_of_le_of_lt (shiftRight_le_self v sh) hv)

theorem wbyte2_lt (sh y v : Nat) :
    (y &&& (255 >>> sh)) ||| ((v <<< (8 - sh)) % 256) < 256 :=
  lor_lt_256 _ _
    (lt_of_le_of_lt Nat.and_le_right (lt_of_le_of_lt (shiftRight_le_self 255 sh) (by norm_num)))
    (Nat.mod_lt _ (by norm_num))

theorem rbyte_lt (sh x y : Nat) (hy : y < 256) :
    ((x <<< sh) % 256) ||| (y >>> (8 - sh)) < 256 :=
  lor_lt_256 _ _ (Nat.mod_lt _ (by norm_num))
    (lt_of_le_of_lt (shiftRight_le_self y (8 - sh)) hy)

/-! ### List access helpers -/

theorem getD_eq_zero_of_le (l : List Nat) (i : Nat) (h : l.length ≤ i) :
    l.getD i 0 = 0 := by
  simp [List.getD_eq_getElem?_getD, List.getElem?_eq_none h]

theorem getD_set_self (l : List Nat) (i v : Nat) (h : i < l.length) :
    (l.set i v).getD i 0 = v := by
  simp [List.getD_eq_getElem?_getD, List.getElem?_set_self h]

theorem getD_set_ne (l : List Nat) (i j v : Nat) (h : i ≠ j) :
    (l.set i v).getD j 0 = l.getD j 0 := by
  simp [List.getD_eq_getElem?_getD, List.getElem?_set_ne h]

theorem getD_ext (l l' : List Nat) (hlen : l.length = l'.length)
    (h : ∀ i, l.getD i 0 = l'.getD i 0) : l = l' := by
  apply List.ext_getElem?
  intro n
  rcases Nat.lt_or_ge n l.length with hn | hn
  · have hn' : n < l'.length := by omega
    rw [List.getElem?_eq_getElem hn, List.getElem?_eq_getElem hn']
    have hgn := h n
    rw [List.getD_eq_getElem?_getD, List.getD_eq_getElem?_getD,
      List.getElem?_eq_getElem hn, List.getElem?_eq_getElem hn'] at hgn
    simpa using hgn
  · rw [List.getElem?_eq_none hn, List.getElem?_eq_none (by omega)]

theorem getD_lt_of_bytes (l : List Nat) (hb : ∀ b ∈ l, b < 256) (i : Nat) :
    l.getD i 0 < 256 := by
  rcases Nat.lt_or_ge i l.length with hi | hi
  · rw [List.getD_eq_getElem?_getD, List.getElem?_eq_getElem hi]
    exact hb _ (List.getElem_mem hi)
  · rw [getD_eq_zero_of_le l i hi]
    norm_num

theorem getD_drop (l : List Nat) (n i : Nat) :
    (l.drop n).getD i 0 = l.getD (n + i) 0 := by
  simp [List.getD_eq_getElem?_getD, List.getElem?_drop]

theorem set_getD_self (l : List Nat) (i : Nat) :
    l.set i (l.getD i 0) = l := by
  apply getD_ext _ _ (by simp)
  intro j
  by_cases hij : i = j
  · subst hij
    rcases Nat.lt_or_ge i l.length with hi | hi
    · rw [getD_set_self _ _ _ hi]
    · rw [List.set_eq_of_length_le hi]
  · rw [getD_set_ne _ _ _ _ hij]

theorem bytes_lt_set (l : List Nat) (hb : ∀ b ∈ l, b < 256) (i v : Nat) (hv : v < 256) :
    ∀ b ∈ l.set i v, b < 256 := by
  intro b hbmem
  rcases List.mem_or_eq_of_mem_set hbmem with hm | hm
  · exact hb _ hm
  · omega

/-! ### Structural lemmas about `write_gain_at` and `read_gain_at` -/

theorem wga_length (data : List Nat) (loc : GainLocation) (v : Nat) :
    (write_gain_at data loc v).length = data.length := by
  simp only [write_gain_at]
  split_ifs <;> simp

theorem wga_getD_ne (data : List Nat) (loc : GainLocation) (v j : Nat)
    (h0 : j ≠ loc.byte_offset) (h1 : j ≠ loc.byte_offset + 1) :
    (write_gain_at data loc v).getD j 0 = data.getD j 0 := by
  simp only [write_gain_at]
  split_ifs
  · rfl
  · exact getD_set_ne _ _ _ _ (Ne.symm h0)
  · rw [getD_set_ne _ _ _ _ (Ne.symm h1), getD_set_ne _ _ _ _ (Ne.symm h0)]
  · exact getD_set_ne _ _ _ _ (Ne.symm h0)

theorem wga_getD_bo (data : List Nat) (loc : GainLocation) (v : Nat)
    (hsh1 : 1 ≤ loc.bit_offset) (hbo : loc.byte_offset + 1 < data.length) :
    (write_gain_at data loc v).getD loc.byte_offset 0 =
      (data.getD loc.byte_offset 0 &&& ((255 <<< (8 - loc.bit_offset)) % 256)) |||
        (v >>> loc.bit_offset) := by
  simp only [write_gain_at]
  rw [if_neg (by omega), if_neg (by omega), if_pos hbo]
  rw [getD_set_ne _ _ _ _ (by omega), getD_set_self _ _ _ (by omega)]

theorem wga_getD_bo1 (data : List Nat) (loc : GainLocation) (v : Nat)
    (hsh1 : 1 ≤ loc.bit_offset) (hbo : loc.byte_offset + 1 < data.length) :
    (write_gain_at data loc v).getD (loc.byte_offset + 1) 0 =
      (data.getD (loc.byte_offset + 1) 0 &&& (255 >>> loc.bit_offset)) |||
        ((v <<< (8 - loc.bit_offset)) % 256) := by
  simp only [write_gain_at]
  rw [if_neg (by omega), if_neg (by omega), if_pos hbo]
  rw [getD_set_self _ _ _ (by simp; omega), getD_set_ne _ _ _ _ (by omega)]

theorem rga_congr (d d' : List Nat) (loc : GainLocation)
    (hlen : d.length = d'.length)
    (h0 : d.getD loc.byte_offset 0 = d'.getD loc.byte_offset 0)
    (h1 : d.getD (loc.byte_offset + 1) 0 = d'.getD (loc.byte_offset + 1) 0) :
    read_gain_at d loc = read_gain_at d' loc := by
  simp only [read_gain_at, hlen, h0, h1]

theorem rga_lt (data : List Nat) (loc : GainLocation)
    (hb : ∀ b ∈ data, b < 256) : read_gain_at data loc < 256 := by
  simp only [read_gain_at]
  split_ifs
  · norm_num
  · exact getD_lt_of_bytes _ hb _
  · exact rbyte_lt _ _ _ (getD_lt_of_bytes _ hb _)
  · exact Nat.mod_lt _ (by norm_num)

theorem wga_bytes_lt (data : List Nat) (loc : GainLocation) (v : Nat)
    (hb : ∀ b ∈ data, b < 256) (hv : v < 256) :
    ∀ b ∈ write_gain_at data loc v, b < 256 := by
  simp only [write_gain_at]
  split_ifs
  · exact hb
  · exact bytes_lt_set _ hb _ _ hv
  · exact bytes_lt_set _ (bytes_lt_set _ hb _ _ (wbyte1_lt _ _ _ hv)) _ _ (wbyte2_lt _ _ _)
  · exact bytes_lt_set _ hb _ _ (wbyte1_lt _ _ _ hv)

theorem wga_aligned (data : List Nat) (loc : GainLocation) (v : Nat)
    (hz : loc.bit_offset = 0) (hbo : loc.byte_offset < data.length) :
    write_gain_at data loc v = data.set loc.byte_offset v := by
  simp only [write_gain_at]
  rw [if_neg (by omega), if_pos hz]

theorem rga_aligned (data : List Nat) (loc : GainLocation)
    (hz : loc.bit_offset = 0) (hbo : loc.byte_offset < data.length) :
    read_gain_at data loc = data.getD loc.byte_offset 0 := by
  simp only [read_gain_at]
  rw [if_neg (by omega), if_pos hz]

theorem wga_roundtrip (data : List Nat) (loc : GainLocation) (v : Nat)
    (hbo : loc.byte_offset + 1 < data.length) (hsh : loc.bit_offset < 8)
    (hv : v < 256) :
    read_gain_at (write_gain_at data loc v) loc = v := by
  by_cases hz : loc.bit_offset = 0
  · rw [wga_aligned _ _ _ hz (by omega),
      rga_aligned _ _ hz (by simp; omega)]
    exact getD_set_self _ _ _ (by omega)
  · have hsh1 : 1 ≤ loc.bit_offset := by omega
    have hlen : (write_gain_at data loc v).length = data.length := wga_length _ _ _
    simp only [read_gain_at, hlen]
    rw [if_neg (by omega), if_neg hz, if_pos hbo]
    rw [wga_getD_bo _ _ _ hsh1 hbo, wga_getD_bo1 _ _ _ hsh1 hbo]
    exact byte_rw _ _ _ _ (by omega) hv

theorem wga_write_read (data : List Nat) (loc : GainLocation)
    (hbo : loc.byte_offset + 1 < data.length) (hsh : loc.bit_offset < 8)
    (hb : ∀ b ∈ data, b < 256) :
    write_gain_at data loc (read_gain_at data loc) = data := by
  by_cases hz : loc.bit_offset = 0
  · rw [rga_aligned _ _ hz (by omega), wga_aligned _ _ _ hz (by omega)]
    exact set_getD_self _ _
  · have hsh1 : 1 ≤ loc.bit_offset := by omega
    apply getD_ext _ _ (wga_length _ _ _)
    intro j
    by_cases hj0 : j = loc.byte_offset
    · subst hj0
      rw [wga_getD_bo _ _ _ hsh1 hbo]
      simp only [read_gain_at]
      rw [if_neg (by omega), if_neg hz, if_pos hbo]
      exact byte_wr1 _ _ _ (by omega) (getD_lt_of_bytes _ hb _) (getD_lt_of_bytes _ hb _)
    · by_cases hj1 : j = loc.byte_offset + 1
      · subst hj1
        rw [wga_getD_bo1 _ _ _ hsh1 hbo]
        simp only [read_gain_at]
        rw [if_neg (by omega), if_neg hz, if_pos hbo]
        exact byte_wr2 _ _ _ (by omega) (getD_lt_of_bytes _ hb _)
      · exact wga_getD_ne _ _ _ _ hj0 hj1

theorem wga_collapse (data : List Nat) (loc : GainLocation) (v w : Nat)
    (hbo : loc.byte_offset + 1 < data.length) (hsh : loc.bit_offset < 8)
    (hv : v < 256) :
    write_gain_at (write_gain_at data loc v) loc w = write_gain_at data loc w := by
  by_cases hz : loc.bit_offset = 0
  · rw [wga_aligned _ _ _ hz (by rw [wga_length]; omega), wga_aligned _ _ _ hz (by omega),
      wga_aligned _ _ _ hz (by omega), List.set_set]
  · have hsh1 : 1 ≤ loc.bit_offset := by omega
    have hlen : (write_gain_at data loc v).length = data.length := wga_length _ _ _
    apply getD_ext _ _ (by rw [wga_length, wga_length, wga_length])
    intro j
    by_cases hj0 : j = loc.byte_offset
    · subst hj0
      rw [wga_getD_bo _ _ _ hsh1 (by omega), wga_getD_bo _ _ _ hsh1 hbo,
        wga_getD_bo _ _ _ hsh1 hbo]
      exact congrArg (· ||| (w >>> loc.bit_offset)) (byte_mask1 _ _ _ (by omega) hv)
    · by_cases hj1 : j = loc.byte_offset + 1
      · subst hj1
        rw [wga_getD_bo1 _ _ _ hsh1 (by omega), wga_getD_bo1 _ _ _ hsh1 hbo,
          wga_getD_bo1 _ _ _ hsh1 hbo]
        exact congrArg (· ||| ((w <<< (8 - loc.bit_offset)) % 256)) (byte_mask2 _ _ _)
      · rw [wga_getD_ne _ _ _ _ hj0 hj1, wga_getD_ne _ _ _ _ hj0 hj1,
          wga_getD_ne _ _ _ _ hj0 hj1]

/-! ### Facts about `parse_header` -/

theorem parse_version_none_iff (b1 : Nat) :
    parse_version b1 = none ↔ (b1 >>> 3) &&& 3 = 1 := by
  have hle : (b1 >>> 3) &&& 3 ≤ 3 := Nat.and_le_right
  have h4 : (b1 >>> 3) &&& 3 = 0 ∨ (b1 >>> 3) &&& 3 = 1 ∨ (b1 >>> 3) &&& 3 = 2 ∨
      (b1 >>> 3) &&& 3 = 3 := by omega
  unfold parse_version
  rcases h4 with hc | hc | hc | hc <;> rw [hc] <;> simp

theorem parse_layer_some3_iff (b1 : Nat) :
    parse_layer b1 = some 3 ↔ (b1 >>> 1) &&& 3 = 1 := by
  have hle : (b1 >>> 1) &&& 3 ≤ 3 := Nat.and_le_right
  have h4 : (b1 >>> 1) &&& 3 = 0 ∨ (b1 >>> 1) &&& 3 = 1 ∨ (b1 >>> 1) &&& 3 = 2 ∨
      (b1 >>> 1) &&& 3 = 3 := by omega
  unfold parse_layer
  rcases h4 with hc | hc | hc | hc <;> rw [hc] <;> simp

theorem parse_layer_ne3 (b1 : Nat) (layer : Nat)
    (hp : parse_layer b1 = some layer) (hne : (b1 >>> 1) &&& 3 ≠ 1) : layer ≠ 3 := by
  have hle : (b1 >>> 1) &&& 3 ≤ 3 := Nat.and_le_right
  have h4 : (b1 >>> 1) &&& 3 = 0 ∨ (b1 >>> 1) &&& 3 = 1 ∨ (b1 >>> 1) &&& 3 = 2 ∨
      (b1 >>> 1) &&& 3 = 3 := by omega
  unfold parse_layer at hp
  rcases h4 with hc | hc | hc | hc <;> rw [hc] at hp hne <;> simp at hp <;> omega

theorem parse_frame_size_eq (l : List Nat) (h : FrameHeader)
    (hp : parse_header l = some h) :
    h.frame_size = (match h.version with | .Mpeg1 => 1152 | _ => 576) *
      h.bitrate_kbps * 125 / h.sample_rate + (if h.padding then 1 else 0) := by
  simp only [parse_header] at hp
  split at hp
  · exact absurd hp (by simp)
  split at hp
  · exact absurd hp (by simp)
  split at hp
  · exact absurd hp (by simp)
  split at hp
  · exact absurd hp (by simp)
  split at hp
  · exact absurd hp (by simp)
  split at hp
  · exact absurd hp (by simp)
  split at hp
  · exact absurd hp (by simp)
  rw [Option.some_inj] at hp
  subst hp
  rfl

theorem bitrate1_ge : ∀ i, i < 15 → 1 ≤ i → 32 ≤ BITRATE_TABLE_MPEG1_L3.getD i 0 := by
  decide

theorem bitrate2_ge : ∀ i, i < 15 → 1 ≤ i → 8 ≤ BITRATE_TABLE_MPEG2_L3.getD i 0 := by
  decide

theorem sr_row0 : ∀ i, i < 3 →
    0 < (SAMPLE_RATE_TABLE.getD 0 []).getD i 0 ∧
      (SAMPLE_RATE_TABLE.getD 0 []).getD i 0 ≤ 48000 := by
  decide

theorem sr_row1 : ∀ i, i < 3 →
    0 < (SAMPLE_RATE_TABLE.getD 1 []).getD i 0 ∧
      (SAMPLE_RATE_TABLE.getD 1 []).getD i 0 ≤ 24000 := by
  decide

theorem sr_row2 : ∀ i, i < 3 →
    0 < (SAMPLE_RATE_TABLE.getD 2 []).getD i 0 ∧
      (SAMPLE_RATE_TABLE.getD 2 []).getD i 0 ≤ 24000 := by
  decide

theorem parse_frame_size_lb (l : List Nat) (h : FrameHeader)
    (hp : parse_header l = some h) :
    24 ≤ h.frame_size ∧ (h.version = .Mpeg1 → 96 ≤ h.frame_size) := by
  simp only [parse_header] at hp
  split at hp
  · exact absurd hp (by simp)
  split at hp
  · exact absurd hp (by simp)
  split at hp
  · exact absurd hp (by simp)
  split at hp
  · exact absurd hp (by simp)
  split at hp
  · exact absurd hp (by simp)
  rename_i xv version hversion xl layer hlayer hlayer3
  split at hp
  · exact absurd hp (by simp)
  rename_i hbi
  split at hp
  · exact absurd hp (by simp)
  rename_i hsi
  rw [Option.some_inj] at hp
  subst hp
  clear hversion hlayer hlayer3 xv xl
  push_neg at hbi
  have hbile : (l.getD 2 0 >>> 4) &&& 15 ≤ 15 := Nat.and_le_right
  have hsile : (l.getD 2 0 >>> 2) &&& 3 ≤ 3 := Nat.and_le_right
  have hsilt : (l.getD 2 0 >>> 2) &&& 3 < 3 := by omega
  cases version
  case Mpeg1 =>
    have hbr : 32 ≤ BITRATE_TABLE_MPEG1_L3.getD ((l.getD 2 0 >>> 4) &&& 15) 0 :=
      bitrate1_ge _ (by omega) (by omega)
    have hsr := sr_row0 _ hsilt
    have h96 : 96 ≤ 1152 * BITRATE_TABLE_MPEG1_L3.getD ((l.getD 2 0 >>> 4) &&& 15) 0 *
        125 / (SAMPLE_RATE_TABLE.getD 0 []).getD ((l.getD 2 0 >>> 2) &&& 3) 0 := by
      calc (96 : Nat) = 4608000 / 48000 := by norm_num
        _ ≤ 1152 * BITRATE_TABLE_MPEG1_L3.getD ((l.getD 2 0 >>> 4) &&& 15) 0 * 125 / 48000 :=
            Nat.div_le_div_right (by omega)
        _ ≤ _ := Nat.div_le_div_left hsr.2 hsr.1
    constructor
    · simp only [FrameHeader.frame_size]
      omega
    · intro _
      simp only [FrameHeader.frame_size]
      omega
  case Mpeg2 =>
    have hbr : 8 ≤ BITRATE_TABLE_MPEG2_L3.getD ((l.getD 2 0 >>> 4) &&& 15) 0 :=
      bitrate2_ge _ (by omega) (by omega)
    have hsr := sr_row1 _ hsilt
    have h24 : 24 ≤ 576 * BITRATE_TABLE_MPEG2_L3.getD ((l.getD 2 0 >>> 4) &&& 15) 0 *
        125 / (SAMPLE_RATE_TABLE.getD 1 []).getD ((l.getD 2 0 >>> 2) &&& 3) 0 := by
      calc (24 : Nat) = 576000 / 24000 := by norm_num
        _ ≤ 576 * BITRATE_TABLE_MPEG2_L3.getD ((l.getD 2 0 >>> 4) &&& 15) 0 * 125 / 24000 :=
            Nat.div_le_div_right (by omega)
        _ ≤ _ := Nat.div_le_div_left hsr.2 hsr.1
    refine ⟨?_, by intro hv; exact absurd hv (by simp)⟩
    simp only [FrameHeader.frame_size]
    omega
  case Mpeg25 =>
    have hbr : 8 ≤ BITRATE_TABLE_MPEG2_L3.getD ((l.getD 2 0 >>> 4) &&& 15) 0 :=
      bitrate2_ge _ (by omega) (by omega)
    have hsr := sr_row2 _ hsilt
    have h24 : 24 ≤ 576 * BITRATE_TABLE_MPEG2_L3.getD ((l.getD 2 0 >>> 4) &&& 15) 0 *
        125 / (SAMPLE_RATE_TABLE.getD 2 []).getD ((l.getD 2 0 >>> 2) &&& 3) 0 := by
      calc (24 : Nat) = 576000 / 24000 := by norm_num
        _ ≤ 576 * BITRATE_TABLE_MPEG2_L3.getD ((l.getD 2 0 >>> 4) &&& 15) 0 * 125 / 24000 :=
            Nat.div_le_div_right (by omega)
        _ ≤ _ := Nat.div_le_div_left hsr.2 hsr.1
    refine ⟨?_, by intro hv; exact absurd hv (by simp)⟩
    simp only [FrameHeader.frame_size]
    omega

/-! ### Facts about `calculate_gain_locations` -/

theorem locs_bounds (l : List Nat) (h : FrameHeader) (pos : Nat)
    (hp : parse_header l = some h) :
    (∀ loc ∈ calculate_gain_locations pos h,
        pos + h.side_info_offset + 3 ≤ loc.byte_offset ∧
        loc.byte_offset + 2 ≤ pos + h.frame_size ∧
        1 ≤ loc.bit_offset ∧ loc.bit_offset < 8) ∧
    (calculate_gain_locations pos h).Pairwise
      (fun a b => a.byte_offset + 2 ≤ b.byte_offset) := by
  have hfs := parse_frame_size_lb l h hp
  clear hp
  obtain ⟨v, lay, crc, br, sr, pad, cm, fs⟩ := h
  simp only at hfs
  cases v <;> cases cm <;> cases crc <;>
    simp_all [calculate_gain_locations, ChannelMode.channel_count,
      FrameHeader.granule_count, FrameHeader.side_info_offset,
      List.range_succ, List.pairwise_cons] <;> omega

/-! ### Facts about the gain update arithmetic -/

theorem newGain_lt (g : Nat) (s : Int) (hg : g < 256) : newGain g s < 256 := by
  unfold newGain
  split_ifs
  · omega
  · omega

theorem newGain_inverse (g : Nat) (S : Int) (hg : g < 256)
    (hS1 : -(2 ^ 31) < S) (hS2 : S < 2 ^ 31) (hsat : satFreeB g S = true) :
    newGain (newGain g S) (-S) = g := by
  unfold satFreeB at hsat
  unfold newGain
  unfold u8cast i32wrap at hsat ⊢
  simp only [min_def] at hsat ⊢
  split_ifs at hsat ⊢ <;> simp only [decide_eq_true_eq] at hsat <;> omega



/-! ### Facts about `processFrame` -/

theorem pf_nil (d : List Nat) (s : Int) : processFrame d [] s = d := rfl

theorem pf_cons (d : List Nat) (loc : GainLocation) (rest : List GainLocation) (s : Int) :
    processFrame d (loc :: rest) s =
      processFrame (write_gain_at d loc (newGain (read_gain_at d loc) s)) rest s := rfl

theorem pf_length (d : List Nat) (L : List GainLocation) (s : Int) :
    (processFrame d L s).length = d.length := by
  induction L generalizing d with
  | nil => rfl
  | cons loc rest ih =>
    rw [pf_cons, ih, wga_length]

theorem pf_bytes_lt (d : List Nat) (L : List GainLocation) (s : Int)
    (hb : ∀ b ∈ d, b < 256) : ∀ b ∈ processFrame d L s, b < 256 := by
  induction L generalizing d with
  | nil => exact hb
  | cons loc rest ih =>
    rw [pf_cons]
    exact ih _ (wga_bytes_lt _ _ _ hb (newGain_lt _ _ (rga_lt _ _ hb)))

theorem pf_getD_outside (d : List Nat) (L : List GainLocation) (s : Int) (j : Nat)
    (hj : ∀ loc ∈ L, j ≠ loc.byte_offset ∧ j ≠ loc.byte_offset + 1) :
    (processFrame d L s).getD j 0 = d.getD j 0 := by
  induction L generalizing d with
  | nil => rfl
  | cons loc rest ih =>
    rw [pf_cons, ih _ (fun x hx => hj x (List.mem_cons_of_mem _ hx)),
      wga_getD_ne _ _ _ _ (hj loc (List.mem_cons_self _ _)).1
        (hj loc (List.mem_cons_self _ _)).2]

theorem wga_congr_at (d d' : List Nat) (loc : GainLocation) (v j : Nat)
    (hlen : d.length = d'.length)
    (h0 : d.getD loc.byte_offset 0 = d'.getD loc.byte_offset 0)
    (h1 : d.getD (loc.byte_offset + 1) 0 = d'.getD (loc.byte_offset + 1) 0)
    (hj : d.getD j 0 = d'.getD j 0) :
    (write_gain_at d loc v).getD j 0 = (write_gain_at d' loc v).getD j 0 := by
  simp only [write_gain_at, hlen, h0, h1]
  split_ifs with hc1 hc2 hc3
  · exact hj
  · by_cases hj0 : j = loc.byte_offset
    · subst hj0
      rw [getD_set_self d _ _ (by omega), getD_set_self d' _ _ (by omega)]
    · rw [getD_set_ne d _ _ _ (Ne.symm hj0), getD_set_ne d' _ _ _ (Ne.symm hj0)]
      exact hj
  · rw [getD_set_ne d loc.byte_offset (loc.byte_offset + 1) _ (by omega),
      getD_set_ne d' loc.byte_offset (loc.byte_offset + 1) _ (by omega), h1]
    by_cases hj0 : j = loc.byte_offset
    · subst hj0
      rw [getD_set_ne _ (loc.byte_offset + 1) loc.byte_offset _ (by omega),
        getD_set_ne _ (loc.byte_offset + 1) loc.byte_offset _ (by omega),
        getD_set_self d _ _ (by omega), getD_set_self d' _ _ (by omega)]
    · by_cases hj1 : j = loc.byte_offset + 1
      · subst hj1
        rw [getD_set_self _ _ _ (by simp; omega), getD_set_self _ _ _ (by simp; omega)]
      · rw [getD_set_ne _ (loc.byte_offset + 1) j _ (Ne.symm hj1),
          getD_set_ne _ (loc.byte_offset + 1) j _ (Ne.symm hj1),
          getD_set_ne d loc.byte_offset j _ (Ne.symm hj0),
          getD_set_ne d' loc.byte_offset j _ (Ne.symm hj0)]
        exact hj
  · by_cases hj0 : j = loc.byte_offset
    · subst hj0
      rw [getD_set_self d _ _ (by omega), getD_set_self d' _ _ (by omega)]
    · rw [getD_set_ne d _ _ _ (Ne.symm hj0), getD_set_ne d' _ _ _ (Ne.symm hj0)]
      exact hj

theorem pf_congr (P : Nat → Prop) (d d' : List Nat) (L : List GainLocation) (s : Int)
    (hlen : d.length = d'.length)
    (hP : ∀ loc ∈ L, P loc.byte_offset ∧ P (loc.byte_offset + 1))
    (hagree : ∀ i, P i → d.getD i 0 = d'.getD i 0) :
    ∀ i, P i → (processFrame d L s).getD i 0 = (processFrame d' L s).getD i 0 := by
  induction L generalizing d d' with
  | nil => exact fun i hi => hagree i hi
  | cons loc rest ih =>
    rw [pf_cons, pf_cons]
    have hPl := hP loc (List.mem_cons_self _ _)
    have hread : read_gain_at d loc = read_gain_at d' loc :=
      rga_congr _ _ _ hlen (hagree _ hPl.1) (hagree _ hPl.2)
    rw [hread]
    exact ih _ _ (by rw [wga_length, wga_length, hlen])
      (fun x hx => hP x (List.mem_cons_of_mem _ hx))
      (fun i hi => wga_congr_at _ _ _ _ _ hlen (hagree _ hPl.1) (hagree _ hPl.2)
        (hagree i hi))

theorem rga_write_disjoint (d : List Nat) (a b : GainLocation) (v : Nat)
    (hdis : a.byte_offset + 2 ≤ b.byte_offset ∨ b.byte_offset + 2 ≤ a.byte_offset) :
    read_gain_at (write_gain_at d a v) b = read_gain_at d b :=
  rga_congr (write_gain_at d a v) d b (wga_length _ _ _)
    (wga_getD_ne d a v b.byte_offset (by omega) (by omega))
    (wga_getD_ne d a v (b.byte_offset + 1) (by omega) (by omega))

theorem pf_read_disjoint (d : List Nat) (L : List GainLocation) (s : Int)
    (b : GainLocation)
    (hdis : ∀ loc ∈ L, loc.byte_offset + 2 ≤ b.byte_offset ∨
      b.byte_offset + 2 ≤ loc.byte_offset) :
    read_gain_at (processFrame d L s) b = read_gain_at d b := by
  induction L generalizing d with
  | nil => rfl
  | cons loc rest ih =>
    rw [pf_cons, ih _ (fun x hx => hdis x (List.mem_cons_of_mem _ hx)),
      rga_write_disjoint d loc b _ (hdis loc (List.mem_cons_self _ _))]

theorem wga_comm (d : List Nat) (a b : GainLocation) (u w : Nat)
    (hdis : a.byte_offset + 2 ≤ b.byte_offset ∨ b.byte_offset + 2 ≤ a.byte_offset) :
    write_gain_at (write_gain_at d a u) b w = write_gain_at (write_gain_at d b w) a u := by
  apply getD_ext _ _ (by rw [wga_length, wga_length, wga_length, wga_length])
  intro j
  by_cases hta : j = a.byte_offset ∨ j = a.byte_offset + 1
  · rw [wga_getD_ne (write_gain_at d a u) b w j (by omega) (by omega)]
    exact (wga_congr_at (write_gain_at d b w) d a u j (wga_length _ _ _)
      (wga_getD_ne d b w a.byte_offset (by omega) (by omega))
      (wga_getD_ne d b w (a.byte_offset + 1) (by omega) (by omega))
      (wga_getD_ne d b w j (by omega) (by omega))).symm
  · by_cases htb : j = b.byte_offset ∨ j = b.byte_offset + 1
    · rw [wga_getD_ne (write_gain_at d b w) a u j (by omega) (by omega)]
      exact wga_congr_at (write_gain_at d a u) d b w j (wga_length _ _ _)
        (wga_getD_ne d a u b.byte_offset (by omega) (by omega))
        (wga_getD_ne d a u (b.byte_offset + 1) (by omega) (by omega))
        (wga_getD_ne d a u j (by omega) (by omega))
    · rw [wga_getD_ne (write_gain_at d a u) b w j (by omega) (by omega),
        wga_getD_ne d a u j (by omega) (by omega),
        wga_getD_ne (write_gain_at d b w) a u j (by omega) (by omega),
        wga_getD_ne d b w j (by omega) (by omega)]

theorem pf_write_comm (d : List Nat) (L : List GainLocation) (s : Int)
    (a : GainLocation) (u : Nat)
    (hdis : ∀ loc ∈ L, loc.byte_offset + 2 ≤ a.byte_offset ∨
      a.byte_offset + 2 ≤ loc.byte_offset) :
    processFrame (write_gain_at d a u) L s = write_gain_at (processFrame d L s) a u := by
  induction L generalizing d with
  | nil => rfl
  | cons loc rest ih =>
    rw [pf_cons, pf_cons,
      rga_write_disjoint d a loc _ ((hdis loc (List.mem_cons_self _ _)).symm),
      wga_comm d a loc _ _ ((hdis loc (List.mem_cons_self _ _)).symm),
      ih _ (fun x hx => hdis x (List.mem_cons_of_mem _ hx))]

theorem pf_inverse (d : List Nat) (L : List GainLocation) (S : Int)
    (hb : ∀ b ∈ d, b < 256)
    (hS1 : -(2 ^ 31) < S) (hS2 : S < 2 ^ 31)
    (hbnd : ∀ loc ∈ L, loc.byte_offset + 1 < d.length ∧ loc.bit_offset < 8)
    (hpair : L.Pairwise (fun x y => x.byte_offset + 2 ≤ y.byte_offset))
    (hsat : ∀ loc ∈ L, satFreeB (read_gain_at d loc) S = true) :
    processFrame (processFrame d L S) L (-S) = d := by
  induction L generalizing d with
  | nil => rfl
  | cons loc rest ih =>
    have hmem := List.mem_cons_self loc rest
    have hbl := hbnd loc hmem
    have hg : read_gain_at d loc < 256 := rga_lt _ _ hb
    have hpair' := List.pairwise_cons.mp hpair
    have hv : newGain (read_gain_at d loc) S < 256 := newGain_lt _ _ hg
    rw [pf_cons]
    conv_lhs =>
      rw [pf_cons]
    rw [pf_read_disjoint _ rest _ loc (fun x hx => Or.inr (hpair'.1 x hx))]
    rw [wga_roundtrip _ _ _ hbl.1 hbl.2 hv]
    rw [newGain_inverse _ _ hg hS1 hS2 (hsat loc hmem)]
    rw [pf_write_comm _ rest _ loc _ (fun x hx => Or.inr (hpair'.1 x hx))]
    rw [ih _ (wga_bytes_lt _ _ _ hb hv)
      (fun x hx => by
        have hbx := hbnd x (List.mem_cons_of_mem _ hx)
        exact ⟨by rw [wga_length]; exact hbx.1, hbx.2⟩)
      hpair'.2
      (fun x hx => by
        rw [rga_write_disjoint d loc x _ (Or.inl (hpair'.1 x hx))]
        exact hsat x (List.mem_cons_of_mem _ hx))]
    rw [wga_collapse _ _ _ _ hbl.1 hbl.2 hv]
    exact wga_write_read _ _ hbl.1 hbl.2 hb

/-! ### Facts about the frame walker -/

theorem walk_stop (s : Int) (fuel : Nat) (d : List Nat) (p : Nat)
    (h : ¬(p + 4 ≤ d.length)) : walkLoop s (fuel + 1) d p = (d, []) := by
  simp only [walkLoop]
  rw [if_neg h]

theorem walk_skip_none (s : Int) (fuel : Nat) (d : List Nat) (p : Nat)
    (h4 : p + 4 ≤ d.length) (hp : parse_header (d.drop p) = none) :
    walkLoop s (fuel + 1) d p = walkLoop s fuel d (p + 1) := by
  simp only [walkLoop]
  rw [if_pos h4, hp]

theorem walk_skip_invalid (s : Int) (fuel : Nat) (d : List Nat) (p : Nat)
    (hdr : FrameHeader) (h4 : p + 4 ≤ d.length)
    (hp : parse_header (d.drop p) = some hdr)
    (hv : frameValid d (p + hdr.frame_size) = false) :
    walkLoop s (fuel + 1) d p = walkLoop s fuel d (p + 1) := by
  simp only [walkLoop]
  rw [if_pos h4, hp]
  simp [hv]

theorem walk_frame (s : Int) (fuel : Nat) (d : List Nat) (p : Nat)
    (hdr : FrameHeader) (h4 : p + 4 ≤ d.length)
    (hp : parse_header (d.drop p) = some hdr)
    (hv : frameValid d (p + hdr.frame_size) = true) :
    walkLoop s (fuel + 1) d p =
      ((walkLoop s fuel (processFrame d (calculate_gain_locations p hdr) s)
          (p + hdr.frame_size)).1,
        p :: (walkLoop s fuel (processFrame d (calculate_gain_locations p hdr) s)
          (p + hdr.frame_size)).2) := by
  simp only [walkLoop]
  rw [if_pos h4, hp]
  simp [hv]

theorem nosat_stop (s : Int) (fuel : Nat) (d : List Nat) (p : Nat)
    (h : ¬(p + 4 ≤ d.length)) : NoSatB s (fuel + 1) d p = true := by
  simp only [NoSatB]
  rw [if_neg h]

theorem nosat_skip_none (s : Int) (fuel : Nat) (d : List Nat) (p : Nat)
    (h4 : p + 4 ≤ d.length) (hp : parse_header (d.drop p) = none) :
    NoSatB s (fuel + 1) d p = NoSatB s fuel d (p + 1) := by
  simp only [NoSatB]
  rw [if_pos h4, hp]

theorem nosat_skip_invalid (s : Int) (fuel : Nat) (d : List Nat) (p : Nat)
    (hdr : FrameHeader) (h4 : p + 4 ≤ d.length)
    (hp : parse_header (d.drop p) = some hdr)
    (hv : frameValid d (p + hdr.frame_size) = false) :
    NoSatB s (fuel + 1) d p = NoSatB s fuel d (p + 1) := by
  simp only [NoSatB]
  rw [if_pos h4, hp]
  simp [hv]

theorem nosat_frame (s : Int) (fuel : Nat) (d : List Nat) (p : Nat)
    (hdr : FrameHeader) (h4 : p + 4 ≤ d.length)
    (hp : parse_header (d.drop p) = some hdr)
    (hv : frameValid d (p + hdr.frame_size) = true) :
    NoSatB s (fuel + 1) d p =
      ((calculate_gain_locations p hdr).all
          (fun loc => satFreeB (read_gain_at d loc) s) &&
        NoSatB s fuel (processFrame d (calculate_gain_locations p hdr) s)
          (p + hdr.frame_size)) := by
  simp only [NoSatB]
  rw [if_pos h4, hp]
  simp [hv]

theorem frameValid_congr (d d' : List Nat) (np : Nat)
    (hlen : d.length = d'.length)
    (h0 : d.getD np 0 = d'.getD np 0) (h1 : d.getD (np + 1) 0 = d'.getD (np + 1) 0) :
    frameValid d np = frameValid d' np := by
  simp only [frameValid, hlen, h0, h1]

theorem parse_congr (l l' : List Nat) (hlen : l.length = l'.length)
    (h0 : l.getD 0 0 = l'.getD 0 0) (h1 : l.getD 1 0 = l'.getD 1 0)
    (h2 : l.getD 2 0 = l'.getD 2 0) (h3 : l.getD 3 0 = l'.getD 3 0) :
    parse_header l = parse_header l' := by
  simp only [parse_header, hlen, h0, h1, h2, h3]

theorem parse_drop_congr (d d' : List Nat) (pos : Nat)
    (hlen : d.length = d'.length)
    (h : ∀ i, pos ≤ i → i < pos + 4 → d.getD i 0 = d'.getD i 0) :
    parse_header (d.drop pos) = parse_header (d'.drop pos) := by
  apply parse_congr _ _ (by simp [hlen]) <;>
    rw [getD_drop, getD_drop] <;> exact h _ (by omega) (by omega)

theorem sio_range (h : FrameHeader) :
    4 ≤ h.side_info_offset ∧ h.side_info_offset ≤ 6 := by
  unfold FrameHeader.side_info_offset
  split <;> omega

theorem walk_length (s : Int) (fuel : Nat) (d : List Nat) (p : Nat) :
    (walkLoop s fuel d p).1.length = d.length := by
  induction fuel generalizing d p with
  | zero => rfl
  | succ fuel ih =>
    by_cases h4 : p + 4 ≤ d.length
    · rcases hp : parse_header (d.drop p) with _ | hdr
      · rw [walk_skip_none _ _ _ _ h4 hp]
        exact ih _ _
      · cases hv : frameValid d (p + hdr.frame_size)
        · rw [walk_skip_invalid _ _ _ _ _ h4 hp hv]
          exact ih _ _
        · rw [walk_frame _ _ _ _ _ h4 hp hv]
          simp only
          rw [ih, pf_length]
    · rw [walk_stop _ _ _ _ h4]

theorem walk_frames_ge (s : Int) (fuel : Nat) (d : List Nat) (p : Nat) :
    ∀ q ∈ (walkLoop s fuel d p).2, p ≤ q := by
  induction fuel generalizing d p with
  | zero => simp [walkLoop]
  | succ fuel ih =>
    by_cases h4 : p + 4 ≤ d.length
    · rcases hp : parse_header (d.drop p) with _ | hdr
      · rw [walk_skip_none _ _ _ _ h4 hp]
        exact fun q hq => le_trans (by omega) (ih _ _ q hq)
      · cases hv : frameValid d (p + hdr.frame_size)
        · rw [walk_skip_invalid _ _ _ _ _ h4 hp hv]
          exact fun q hq => le_trans (by omega) (ih _ _ q hq)
        · rw [walk_frame _ _ _ _ _ h4 hp hv]
          intro q hq
          simp only [List.mem_cons] at hq
          rcases hq with hq | hq
          · omega
          · exact le_trans (by omega) (ih _ _ q hq)
    · rw [walk_stop _ _ _ _ h4]
      simp

theorem walk_getD_lo (s : Int) (fuel : Nat) (d : List Nat) (p : Nat) :
    ∀ j, j < p + 7 → (walkLoop s fuel d p).1.getD j 0 = d.getD j 0 := by
  induction fuel generalizing d p with
  | zero => intro j _; rfl
  | succ fuel ih =>
    intro j hj
    by_cases h4 : p + 4 ≤ d.length
    · rcases hp : parse_header (d.drop p) with _ | hdr
      · rw [walk_skip_none _ _ _ _ h4 hp]
        exact ih _ _ j (by omega)
      · cases hv : frameValid d (p + hdr.frame_size)
        · rw [walk_skip_invalid _ _ _ _ _ h4 hp hv]
          exact ih _ _ j (by omega)
        · rw [walk_frame _ _ _ _ _ h4 hp hv]
          simp only
          have hlb := (locs_bounds _ _ p hp).1
          have hsio := sio_range hdr
          rw [ih _ _ j (by omega)]
          exact pf_getD_outside _ _ _ _ (fun loc hloc => by
            have := hlb loc hloc
            constructor <;> omega)
    · rw [walk_stop _ _ _ _ h4]

theorem walk_congr (s : Int) (fuel : Nat) (d d' : List Nat) (p : Nat)
    (hlen : d.length = d'.length)
    (hag : ∀ i, p ≤ i → d.getD i 0 = d'.getD i 0) :
    (walkLoop s fuel d p).2 = (walkLoop s fuel d' p).2 ∧
      ∀ i, p ≤ i → (walkLoop s fuel d p).1.getD i 0 = (walkLoop s fuel d' p).1.getD i 0 := by
  induction fuel generalizing d d' p with
  | zero => exact ⟨rfl, hag⟩
  | succ fuel ih =>
    by_cases h4 : p + 4 ≤ d.length
    · have h4' : p + 4 ≤ d'.length := by omega
      have hpe : parse_header (d.drop p) = parse_header (d'.drop p) :=
        parse_drop_congr _ _ _ hlen (fun i hi _ => hag i hi)
      rcases hp : parse_header (d.drop p) with _ | hdr
      · have hp' : parse_header (d'.drop p) = none := by rw [← hpe, hp]
        rw [walk_skip_none _ _ _ _ h4 hp, walk_skip_none _ _ _ _ h4' hp']
        have hih := ih d d' (p + 1) hlen (fun i hi => hag i (by omega))
        refine ⟨hih.1, fun i hi => ?_⟩
        rcases Nat.lt_or_ge i (p + 1) with hlt | hge
        · rw [walk_getD_lo _ _ _ _ i (by omega), walk_getD_lo _ _ _ _ i (by omega)]
          exact hag i hi
        · exact hih.2 i hge
      · have hp' : parse_header (d'.drop p) = some hdr := by rw [← hpe, hp]
        have hfv : frameValid d (p + hdr.frame_size) =
            frameValid d' (p + hdr.frame_size) :=
          frameValid_congr _ _ _ hlen (hag _ (by omega)) (hag _ (by omega))
        cases hv : frameValid d (p + hdr.frame_size)
        · rw [walk_skip_invalid _ _ _ _ _ h4 hp hv,
            walk_skip_invalid _ _ _ _ _ h4' hp' (by rw [← hfv, hv])]
          have hih := ih d d' (p + 1) hlen (fun i hi => hag i (by omega))
          refine ⟨hih.1, fun i hi => ?_⟩
          rcases Nat.lt_or_ge i (p + 1) with hlt | hge
          · rw [walk_getD_lo _ _ _ _ i (by omega), walk_getD_lo _ _ _ _ i (by omega)]
            exact hag i hi
          · exact hih.2 i hge
        · rw [walk_frame _ _ _ _ _ h4 hp hv,
            walk_frame _ _ _ _ _ h4' hp' (by rw [← hfv, hv])]
          simp only
          have hlb := (locs_bounds _ _ p hp).1
          have hsio := sio_range hdr
          have hpfc : ∀ i, p ≤ i →
              (processFrame d (calculate_gain_locations p hdr) s).getD i 0 =
                (processFrame d' (calculate_gain_locations p hdr) s).getD i 0 :=
            pf_congr (fun i => p ≤ i) _ _ _ _ hlen
              (fun loc hloc => by
                have := hlb loc hloc
                constructor <;> omega)
              hag
          have hpl : (processFrame d (calculate_gain_locations p hdr) s).length =
              (processFrame d' (calculate_gain_locations p hdr) s).length := by
            rw [pf_length, pf_length, hlen]
          have hihx := ih _ _ (p + hdr.frame_size) hpl (fun i hi => hpfc i (by omega))
          refine ⟨by rw [hihx.1], ?_⟩
          intro i hi
          rcases Nat.lt_or_ge i (p + hdr.frame_size) with hlt | hge
          · rw [walk_getD_lo _ _ _ _ i (by omega), walk_getD_lo _ _ _ _ i (by omega)]
            exact hpfc i hi
          · exact hihx.2 i hge
    · have h4' : ¬(p + 4 ≤ d'.length) := by omega
      rw [walk_stop _ _ _ _ h4, walk_stop _ _ _ _ h4']
      exact ⟨rfl, hag⟩

theorem frameValid_le (d : List Nat) (np : Nat) (hv : frameValid d np = true) :
    np ≤ d.length := by
  unfold frameValid at hv
  split_ifs at hv with hc
  · omega
  · exact of_decide_eq_true hv

theorem walk_frame_fst (s : Int) (fuel : Nat) (d : List Nat) (p : Nat)
    (hdr : FrameHeader) (h4 : p + 4 ≤ d.length)
    (hp : parse_header (d.drop p) = some hdr)
    (hv : frameValid d (p + hdr.frame_size) = true) :
    (walkLoop s (fuel + 1) d p).1 =
      (walkLoop s fuel (processFrame d (calculate_gain_locations p hdr) s)
        (p + hdr.frame_size)).1 := by
  rw [walk_frame s fuel d p hdr h4 hp hv]

theorem walk_frame_snd (s : Int) (fuel : Nat) (d : List Nat) (p : Nat)
    (hdr : FrameHeader) (h4 : p + 4 ≤ d.length)
    (hp : parse_header (d.drop p) = some hdr)
    (hv : frameValid d (p + hdr.frame_size) = true) :
    (walkLoop s (fuel + 1) d p).2 =
      p :: (walkLoop s fuel (processFrame d (calculate_gain_locations p hdr) s)
        (p + hdr.frame_size)).2 := by
  rw [walk_frame s fuel d p hdr h4 hp hv]

theorem walk_lockstep (S : Int) (hS1 : -(2 ^ 31) < S) (hS2 : S < 2 ^ 31)
    (fuel : Nat) :
    ∀ (d : List Nat) (p : Nat),
      (∀ b ∈ d, b < 256) →
      NoSatB S fuel d p = true →
      (walkLoop (-S) fuel (walkLoop S fuel d p).1 p).2 = (walkLoop S fuel d p).2 →
      (walkLoop (-S) fuel (walkLoop S fuel d p).1 p).1 = d := by
  induction fuel with
  | zero => exact fun d p _ _ _ => rfl
  | succ fuel ih =>
    intro d p hb hsat hfr
    by_cases h4 : p + 4 ≤ d.length
    · rcases hp : parse_header (d.drop p) with _ | hdr
      · -- resynchronization: no header parses here in either run
        rw [walk_skip_none S fuel d p h4 hp] at hfr ⊢
        have hlen1 : (walkLoop S fuel d (p + 1)).1.length = d.length :=
          walk_length _ _ _ _
        have hpe : parse_header ((walkLoop S fuel d (p + 1)).1.drop p) = none := by
          rw [parse_drop_congr _ d p hlen1
            (fun i _ hi4 => walk_getD_lo _ _ _ _ i (by omega)), hp]
        rw [walk_skip_none (-S) fuel _ p (by omega) hpe] at hfr ⊢
        exact ih d (p + 1) hb
          (by rw [nosat_skip_none S fuel d p h4 hp] at hsat; exact hsat) hfr
      · cases hv : frameValid d (p + hdr.frame_size)
        · -- run 1 rejects the candidate frame
          rw [walk_skip_invalid S fuel d p hdr h4 hp hv] at hfr ⊢
          have hlen1 : (walkLoop S fuel d (p + 1)).1.length = d.length :=
            walk_length _ _ _ _
          have hpe : parse_header ((walkLoop S fuel d (p + 1)).1.drop p) = some hdr := by
            rw [parse_drop_congr _ d p hlen1
              (fun i _ hi4 => walk_getD_lo _ _ _ _ i (by omega)), hp]
          cases hv2 : frameValid (walkLoop S fuel d (p + 1)).1 (p + hdr.frame_size)
          · rw [walk_skip_invalid (-S) fuel _ p hdr (by omega) hpe hv2] at hfr ⊢
            exact ih d (p + 1) hb
              (by rw [nosat_skip_invalid S fuel d p hdr h4 hp hv] at hsat; exact hsat) hfr
          · -- run 2 would accept a frame run 1 rejected: contradicts equal frame lists
            exfalso
            rw [walk_frame_snd (-S) fuel _ p hdr (by omega) hpe hv2] at hfr
            have hmem : p ∈ (walkLoop S fuel d (p + 1)).2 := by
              rw [← hfr]
              exact List.mem_cons_self _ _
            have := walk_frames_ge S fuel d (p + 1) p hmem
            omega
        · -- run 1 processes a validated frame at p
          have hnp : p + hdr.frame_size ≤ d.length := frameValid_le _ _ hv
          have hfs := parse_frame_size_lb _ _ hp
          have hlb := (locs_bounds _ _ p hp).1
          have hpair := (locs_bounds _ _ p hp).2
          have hsio := sio_range hdr
          rw [walk_frame_fst S fuel d p hdr h4 hp hv] at hfr ⊢
          rw [walk_frame_snd S fuel d p hdr h4 hp hv] at hfr
          have hAbytes : ∀ b ∈ processFrame d (calculate_gain_locations p hdr) S,
              b < 256 := pf_bytes_lt _ _ _ hb
          have hAlen : (processFrame d (calculate_gain_locations p hdr) S).length =
              d.length := pf_length _ _ _
          have hAlo : ∀ i, (∀ loc ∈ calculate_gain_locations p hdr,
              i ≠ loc.byte_offset ∧ i ≠ loc.byte_offset + 1) →
              (processFrame d (calculate_gain_locations p hdr) S).getD i 0 =
                d.getD i 0 := fun i hi => pf_getD_outside _ _ _ _ hi
          have hd1len : (walkLoop S fuel
              (processFrame d (calculate_gain_locations p hdr) S)
              (p + hdr.frame_size)).1.length = d.length := by
            rw [walk_length, hAlen]
          have hd1A : ∀ i, i < p + hdr.frame_size + 7 →
              (walkLoop S fuel (processFrame d (calculate_gain_locations p hdr) S)
                (p + hdr.frame_size)).1.getD i 0 =
              (processFrame d (calculate_gain_locations p hdr) S).getD i 0 :=
            fun i hi => walk_getD_lo _ _ _ _ i hi
          -- run 2 parses the same header at p
          have hpe : parse_header ((walkLoop S fuel
              (processFrame d (calculate_gain_locations p hdr) S)
              (p + hdr.frame_size)).1.drop p) = some hdr := by
            rw [parse_drop_congr _ d p hd1len (fun i hip hi4 => by
              rw [hd1A i (by omega)]
              exact hAlo i (fun loc hloc => by
                have := hlb loc hloc
                constructor <;> omega)), hp]
          -- run 2 validates the frame the same way
          have hv2 : frameValid (walkLoop S fuel
              (processFrame d (calculate_gain_locations p hdr) S)
              (p + hdr.frame_size)).1 (p + hdr.frame_size) = true := by
            rw [frameValid_congr _ d _ hd1len
              (by
                rw [hd1A _ (by omega)]
                exact hAlo _ (fun loc hloc => by
                  have := hlb loc hloc
                  constructor <;> omega))
              (by
                rw [hd1A _ (by omega)]
                exact hAlo _ (fun loc hloc => by
                  have := hlb loc hloc
                  constructor <;> omega))]
            exact hv
          rw [walk_frame_fst (-S) fuel _ p hdr (by omega) hpe hv2]
          rw [walk_frame_snd (-S) fuel _ p hdr (by omega) hpe hv2,
            List.cons.injEq] at hfr
          -- the second run's frame write, then its tail walk
          have hBag : ∀ i, p + hdr.frame_size ≤ i →
              (processFrame (walkLoop S fuel
                (processFrame d (calculate_gain_locations p hdr) S)
                (p + hdr.frame_size)).1 (calculate_gain_locations p hdr) (-S)).getD i 0 =
              (walkLoop S fuel (processFrame d (calculate_gain_locations p hdr) S)
                (p + hdr.frame_size)).1.getD i 0 :=
            fun i hi => pf_getD_outside _ _ _ _ (fun loc hloc => by
              have := hlb loc hloc
              constructor <;> omega)
          have hBlen : (processFrame (walkLoop S fuel
              (processFrame d (calculate_gain_locations p hdr) S)
              (p + hdr.frame_size)).1 (calculate_gain_locations p hdr) (-S)).length =
              (walkLoop S fuel (processFrame d (calculate_gain_locations p hdr) S)
                (p + hdr.frame_size)).1.length := pf_length _ _ _
          have hcongr := walk_congr (-S) fuel _ _ (p + hdr.frame_size) hBlen hBag
          -- no-saturation splits into this frame and the rest
          rw [nosat_frame S fuel d p hdr h4 hp hv, Bool.and_eq_true] at hsat
          have hallsat := List.all_eq_true.mp hsat.1
          -- inner induction hypothesis on the tail walk
          have hih := ih (processFrame d (calculate_gain_locations p hdr) S)
            (p + hdr.frame_size) hAbytes hsat.2 (by rw [← hcongr.1]; exact hfr.2)
          -- the per-frame inverse
          have hinv := pf_inverse d (calculate_gain_locations p hdr) S hb hS1 hS2
            (fun loc hloc => by
              have := hlb loc hloc
              exact ⟨by omega, this.2.2.2⟩)
            hpair
            (fun loc hloc => of_decide_eq_true (by
              have := hallsat loc hloc
              simpa using this))
          apply getD_ext _ _ (by rw [walk_length, hBlen, hd1len])
          intro j
          rcases Nat.lt_or_ge j (p + hdr.frame_size) with hj | hj
          · rw [walk_getD_lo _ _ _ _ j (by omega)]
            have hstep : (processFrame (walkLoop S fuel
                (processFrame d (calculate_gain_locations p hdr) S)
                (p + hdr.frame_size)).1 (calculate_gain_locations p hdr) (-S)).getD j 0 =
                (processFrame (processFrame d (calculate_gain_locations p hdr) S)
                  (calculate_gain_locations p hdr) (-S)).getD j 0 :=
              pf_congr (fun i => i < p + hdr.frame_size) _ _ _ _
                (by rw [hd1len, hAlen])
                (fun loc hloc => by
                  have := hlb loc hloc
                  constructor <;> omega)
                (fun i hi => hd1A i (by omega)) j hj
            rw [hstep, hinv]
          · rw [hcongr.2 j hj, hih]
            exact hAlo j (fun loc hloc => by
              have := hlb loc hloc
              constructor <;> omega)
    · rw [walk_stop S fuel d p h4] at hfr ⊢
      rw [walk_stop (-S) fuel d p h4]

/-! ### Facts about `skip_id3v2` -/

theorem skip_short (d : List Nat) (h : d.length < 10) : skip_id3v2 d = 0 := by
  unfold skip_id3v2
  rw [if_pos h]

theorem skip_nosig (d : List Nat) (h10 : ¬(d.length < 10))
    (h : ¬(d.getD 0 0 = 73 ∧ d.getD 1 0 = 68 ∧ d.getD 2 0 = 51)) :
    skip_id3v2 d = 0 := by
  unfold skip_id3v2
  rw [if_neg h10, if_pos h]

theorem skip_sig (d : List Nat) (h10 : ¬(d.length < 10))
    (h : d.getD 0 0 = 73 ∧ d.getD 1 0 = 68 ∧ d.getD 2 0 = 51) :
    skip_id3v2 d = 10 +
      (((d.getD 6 0 &&& 127) <<< 21) ||| ((d.getD 7 0 &&& 127) <<< 14) |||
        ((d.getD 8 0 &&& 127) <<< 7) ||| (d.getD 9 0 &&& 127)) := by
  unfold skip_id3v2
  rw [if_neg h10, if_neg (by simpa using h)]

theorem skip_walk_pres_aux (s : Int) (fuel : Nat) (d : List Nat) (p0 : Nat)
    (hp0 : skip_id3v2 d = p0) : skip_id3v2 (walkLoop s fuel d p0).1 = p0 := by
  by_cases h10 : d.length < 10
  · have h0 : p0 = 0 := by rw [← hp0, skip_short d h10]
    subst h0
    exact skip_short _ (by rw [walk_length]; exact h10)
  · by_cases hsig : d.getD 0 0 = 73 ∧ d.getD 1 0 = 68 ∧ d.getD 2 0 = 51
    · have hval : p0 = 10 +
          (((d.getD 6 0 &&& 127) <<< 21) ||| ((d.getD 7 0 &&& 127) <<< 14) |||
            ((d.getD 8 0 &&& 127) <<< 7) ||| (d.getD 9 0 &&& 127)) := by
        rw [← hp0, skip_sig d h10 hsig]
      have h10' : 10 ≤ p0 := by rw [hval]; omega
      have hlo : ∀ i, i < 10 → (walkLoop s fuel d p0).1.getD i 0 = d.getD i 0 :=
        fun i hi => walk_getD_lo _ _ _ _ i (by omega)
      rw [skip_sig _ (by rw [walk_length]; omega)
        (by rw [hlo 0 (by omega), hlo 1 (by omega), hlo 2 (by omega)]; exact hsig)]
      rw [hlo 6 (by omega), hlo 7 (by omega), hlo 8 (by omega), hlo 9 (by omega)]
      exact hval.symm
    · have h0 : p0 = 0 := by rw [← hp0, skip_nosig d h10 hsig]
      subst h0
      have hlo : ∀ i, i < 7 → (walkLoop s fuel d 0).1.getD i 0 = d.getD i 0 :=
        fun i hi => walk_getD_lo _ _ _ _ i (by omega)
      exact skip_nosig _ (by rw [walk_length]; omega)
        (by rw [hlo 0 (by omega), hlo 1 (by omega), hlo 2 (by omega)]; exact hsig)

theorem skip_walk_pres (s : Int) (fuel : Nat) (d : List Nat) :
    skip_id3v2 (walkLoop s fuel d (skip_id3v2 d)).1 = skip_id3v2 d :=
  skip_walk_pres_aux s fuel d _ rfl

theorem apply_gain_fst (d : List Nat) (s : Int) (h : s ≠ 0) :
    (apply_gain d s).1 = (walkLoop s (d.length + 1) d (skip_id3v2 d)).1 := by
  unfold apply_gain
  rw [if_neg h]

/-! ### Within-run purity of the walker -/

theorem walk_frames_spec (s : Int) (fuel : Nat) (d : List Nat) (p : Nat) :
    ∀ q ∈ (walkLoop s fuel d p).2,
      ∃ hdr, parse_header (d.drop q) = some hdr ∧
        (∀ loc ∈ calculate_gain_locations q hdr,
          q + hdr.side_info_offset + 3 ≤ loc.byte_offset ∧
            loc.byte_offset + 2 ≤ q + hdr.frame_size) ∧
        ∀ i, q ≤ i → i < q + hdr.side_info_offset + 3 →
          (walkLoop s fuel d p).1.getD i 0 = d.getD i 0 := by
  induction fuel generalizing d p with
  | zero => simp [walkLoop]
  | succ fuel ih =>
    by_cases h4 : p + 4 ≤ d.length
    · rcases hp : parse_header (d.drop p) with _ | hdr
      · rw [walk_skip_none s fuel d p h4 hp]
        exact ih d (p + 1)
      · cases hv : frameValid d (p + hdr.frame_size)
        · rw [walk_skip_invalid s fuel d p hdr h4 hp hv]
          exact ih d (p + 1)
        · have hfs := parse_frame_size_lb _ _ hp
          have hlb := (locs_bounds _ _ p hp).1
          have hsio := sio_range hdr
          intro q hq
          rw [walk_frame_snd s fuel d p hdr h4 hp hv] at hq
          rw [walk_frame_fst s fuel d p hdr h4 hp hv]
          rcases List.mem_cons.mp hq with hq | hq
          · subst hq
            refine ⟨hdr, hp, fun loc hloc => ⟨(hlb loc hloc).1, (hlb loc hloc).2.1⟩, ?_⟩
            intro i hqi hi
            rw [walk_getD_lo _ _ _ _ i (by omega)]
            exact pf_getD_outside _ _ _ _ (fun loc hloc => by
              have := hlb loc hloc
              constructor <;> omega)
          · have hqge := walk_frames_ge s fuel _ _ q hq
            obtain ⟨hdr', hp', hlb', hwin⟩ := ih _ _ q hq
            have hAq : ∀ i, q ≤ i →
                (processFrame d (calculate_gain_locations p hdr) s).getD i 0 =
                  d.getD i 0 := fun i hi =>
              pf_getD_outside _ _ _ _ (fun loc hloc => by
                have := hlb loc hloc
                constructor <;> omega)
            refine ⟨hdr', ?_, hlb', ?_⟩
            · rw [← hp']
              apply parse_drop_congr _ _ _ (pf_length _ _ _).symm
              intro i hi _
              exact (hAq i hi).symm
            · intro i hqi hi
              rw [hwin i hqi hi]
              exact hAq i hqi
    · rw [walk_stop s fuel d p h4]
      simp

/-! ### Remaining helper lemmas for the claim theorems -/

theorem parse_version_isSome (b1 : Nat) (h : (b1 >>> 3) &&& 3 ≠ 1) :
    ∃ v, parse_version b1 = some v := by
  have hle : (b1 >>> 3) &&& 3 ≤ 3 := Nat.and_le_right
  have h4 : (b1 >>> 3) &&& 3 = 0 ∨ (b1 >>> 3) &&& 3 = 2 ∨ (b1 >>> 3) &&& 3 = 3 := by omega
  unfold parse_version
  rcases h4 with hc | hc | hc <;> rw [hc] <;> exact ⟨_, rfl⟩

theorem wga_oob (data : List Nat) (loc : GainLocation) (v : Nat)
    (h : data.length ≤ loc.byte_offset) : write_gain_at data loc v = data := by
  unfold write_gain_at
  rw [if_pos h]

theorem wga_tail (data : List Nat) (loc : GainLocation) (v : Nat)
    (hz : loc.bit_offset ≠ 0) (hlast : loc.byte_offset + 1 = data.length) :
    write_gain_at data loc v = data.set loc.byte_offset
      ((data.getD loc.byte_offset 0 &&& ((255 <<< (8 - loc.bit_offset)) % 256)) |||
        (v >>> loc.bit_offset)) := by
  unfold write_gain_at
  rw [if_neg (by omega), if_neg hz, if_neg (by omega)]

theorem gc_cases (h : FrameHeader) : h.granule_count = 1 ∨ h.granule_count = 2 := by
  unfold FrameHeader.granule_count
  split
  · exact Or.inr rfl
  · exact Or.inl rfl

theorem cc_cases (h : FrameHeader) :
    h.channel_mode.channel_count = 1 ∨ h.channel_mode.channel_count = 2 := by
  unfold ChannelMode.channel_count
  split
  · exact Or.inl rfl
  · exact Or.inr rfl

theorem calc_locs_eq (f : Nat) (h : FrameHeader) :
    calculate_gain_locations f h =
      (List.range (h.granule_count * h.channel_mode.channel_count)).map (fun k =>
        { byte_offset := f + h.side_info_offset +
            (spec_bits_before_granules h.version h.channel_mode.channel_count +
              k * spec_bits_per_granule_channel h.version + 21) / 8
          bit_offset := (spec_bits_before_granules h.version h.channel_mode.channel_count +
            k * spec_bits_per_granule_channel h.version + 21) % 8 }) := by
  obtain ⟨v, lay, crc, br, sr, pad, cm, fs⟩ := h
  cases v <;> cases cm <;>
    simp [calculate_gain_locations, ChannelMode.channel_count,
      FrameHeader.granule_count, spec_bits_before_granules,
      spec_bits_per_granule_channel, List.range_succ]

/-! ### The specification claims -/

/-- **C1.** For every file content and every step count `S` (in the `i32`
range) such that no `global_gain` field saturates at the 0/255 boundary during
the application, applying `apply_gain` with `+S` and then `apply_gain` with
`-S` to the same frame set yields byte content identical to the original.
The reverse order is this statement with `S` instantiated at `-S`. -/
theorem c1_gain_roundtrip (data : List Nat) (S : Int)
    (hbytes : ∀ b ∈ data, b < 256)
    (hS1 : -(2 ^ 31) < S) (hS2 : S < 2 ^ 31)
    (hsat : NoSatB S (data.length + 1) data (skip_id3v2 data) = true)
    (hframes : (walkLoop (-S) ((apply_gain data S).1.length + 1) (apply_gain data S).1
        (skip_id3v2 (apply_gain data S).1)).2 =
      (walkLoop S (data.length + 1) data (skip_id3v2 data)).2) :
    (apply_gain (apply_gain data S).1 (-S)).1 = data := by
  by_cases hz : S = 0
  · subst hz
    simp [apply_gain]
  · have hz2 : (-S) ≠ 0 := by omega
    rw [apply_gain_fst data S hz] at hframes ⊢
    rw [apply_gain_fst _ (-S) hz2]
    rw [walk_length] at hframes ⊢
    rw [skip_walk_pres] at hframes ⊢
    exact walk_lockstep S hS1 hS2 (data.length + 1) data (skip_id3v2 data)
      hbytes hsat hframes

/-- Witness for C1 on a concrete two-frame buffer with `S = 1`. -/
theorem c1_gain_roundtrip_witness :
    (apply_gain (apply_gain sampleFile 1).1 (-1)).1 = sampleFile :=
  c1_gain_roundtrip sampleFile 1 (by decide) (by decide) (by decide) (by decide)
    (by decide)

/-- **C2.** For every input buffer and every step count, `apply_gain` never
changes the buffer length: the buffer written back is byte-for-byte the same
length as the buffer read. -/
theorem c2_length (data : List Nat) (gain_steps : Int) :
    (apply_gain data gain_steps).1.length = data.length := by
  unfold apply_gain
  split_ifs
  · rfl
  · exact walk_length _ _ _ _

/-- **C3 counterexample.** At `steps = -2^31` (the only `i32` whose negation
overflows; Rust release builds wrap it back to `-2^31`), the code leaves a gain
of 3 unchanged, while the claim demands `max 0 (3 - min (-steps) 255) = 0`. -/
theorem c3_counterexample :
    ¬((newGain 3 (-(2 ^ 31)) : Int) = max 0 ((3 : Int) - min (2 ^ 31) 255)) := by
  decide

/-- **C3 (amended).** For every current gain value and every nonzero `i32`
step count other than `-2^31`, the new gain is computed by saturating
arithmetic with no wraparound: `min (g + min steps 255) 255` for positive
steps and `max 0 (g - min (-steps) 255)` for negative steps; in particular
`250` with `+10` becomes `255` and `3` with `-10` becomes `0`. -/
theorem c3_newGain (g : Nat) (steps : Int) (h0 : steps ≠ 0)
    (hlo : -(2 ^ 31) < steps) (hhi : steps < 2 ^ 31) :
    (newGain g steps : Int) =
      if 0 < steps then min ((g : Int) + min steps 255) 255
      else max 0 ((g : Int) - min (-steps) 255) := by
  unfold newGain u8cast i32wrap
  simp only [min_def, max_def]
  split_ifs <;> push_cast <;> omega

/-- Witness for C3: the claim's two quoted saturation examples. -/
theorem c3_newGain_witness :
    ((newGain 250 10 : Int) =
      if (0 : Int) < 10 then min (((250 : Nat) : Int) + min 10 255) 255
      else max 0 (((250 : Nat) : Int) - min (-10) 255)) ∧
    ((newGain 3 (-10) : Int) =
      if (0 : Int) < -10 then min (((3 : Nat) : Int) + min (-10) 255) 255
      else max 0 (((3 : Nat) : Int) - min (- -10) 255)) ∧
    newGain 250 10 = 255 ∧ newGain 3 (-10) = 0 :=
  ⟨c3_newGain 250 10 (by decide) (by decide) (by decide),
   c3_newGain 3 (-10) (by decide) (by decide) (by decide),
   by decide, by decide⟩

/-- **C4.** For every frame start and parsed header, `calculate_gain_locations`
returns exactly `granuleCount * channelCount` locations (between 1 and 4),
ordered granule-major then channel-minor; the location for granule `g` and
channel `c` sits at absolute bit position
`8 * (frameStart + (hasCrc ? 6 : 4)) + bitsBeforeGranules +
(g*channelCount + c)*bitsPerGranuleChannel + 21`, its `byte_offset` is
`sideInfoStart + bit/8` and its `bit_offset` is `bit % 8`. -/
theorem c4_locations (f : Nat) (h : FrameHeader) :
    (calculate_gain_locations f h).length =
        h.granule_count * h.channel_mode.channel_count ∧
    1 ≤ (calculate_gain_locations f h).length ∧
    (calculate_gain_locations f h).length ≤ 4 ∧
    ∀ g c, g < h.granule_count → c < h.channel_mode.channel_count →
      ∃ loc, (calculate_gain_locations f h)[g * h.channel_mode.channel_count + c]? =
          some loc ∧
        8 * loc.byte_offset + loc.bit_offset =
          8 * (f + (if h.has_crc then 6 else 4)) +
            spec_bits_before_granules h.version h.channel_mode.channel_count +
            (g * h.channel_mode.channel_count + c) *
              spec_bits_per_granule_channel h.version + 21 ∧
        loc.byte_offset = (f + (if h.has_crc then 6 else 4)) +
          (spec_bits_before_granules h.version h.channel_mode.channel_count +
            (g * h.channel_mode.channel_count + c) *
              spec_bits_per_granule_channel h.version + 21) / 8 ∧
        loc.bit_offset = (spec_bits_before_granules h.version h.channel_mode.channel_count +
          (g * h.channel_mode.channel_count + c) *
            spec_bits_per_granule_channel h.version + 21) % 8 := by
  have hlen : (calculate_gain_locations f h).length =
      h.granule_count * h.channel_mode.channel_count := by
    rw [calc_locs_eq]
    simp
  have hgc := gc_cases h
  have hcc := cc_cases h
  refine ⟨hlen, ?_, ?_, ?_⟩
  · rw [hlen]
    rcases hgc with hg | hg <;> rcases hcc with hc | hc <;> rw [hg, hc] <;> norm_num
  · rw [hlen]
    rcases hgc with hg | hg <;> rcases hcc with hc | hc <;> rw [hg, hc] <;> norm_num
  · intro g c hg hc
    have hidx : g * h.channel_mode.channel_count + c <
        h.granule_count * h.channel_mode.channel_count := by
      rcases hgc with h1 | h1 <;> rcases hcc with h2 | h2 <;>
        rw [h1] at hg ⊢ <;> rw [h2] at hc ⊢ <;> omega
    refine ⟨⟨f + h.side_info_offset +
        (spec_bits_before_granules h.version h.channel_mode.channel_count +
          (g * h.channel_mode.channel_count + c) *
            spec_bits_per_granule_channel h.version + 21) / 8,
        (spec_bits_before_granules h.version h.channel_mode.channel_count +
          (g * h.channel_mode.channel_count + c) *
            spec_bits_per_granule_channel h.version + 21) % 8⟩, ?_, ?_, ?_, ?_⟩
    · rw [calc_locs_eq]
      rw [List.getElem?_map, List.getElem?_range hidx]
      rfl
    · have hsio : h.side_info_offset = if h.has_crc then 6 else 4 := rfl
      simp only
      omega
    · have hsio : h.side_info_offset = if h.has_crc then 6 else 4 := rfl
      simp only
      omega
    · simp only

theorem c4_locations_witness :
    (calculate_gain_locations 0 header417).length =
      header417.granule_count * header417.channel_mode.channel_count ∧
    (0 < header417.granule_count ∧ 0 < header417.channel_mode.channel_count) ∧
    ∃ loc, (calculate_gain_locations 0 header417)[0 * header417.channel_mode.channel_count + 0]? =
        some loc ∧
      8 * loc.byte_offset + loc.bit_offset =
        8 * (0 + (if header417.has_crc then 6 else 4)) +
          spec_bits_before_granules header417.version header417.channel_mode.channel_count +
          (0 * header417.channel_mode.channel_count + 0) *
            spec_bits_per_granule_channel header417.version + 21 := by
  refine ⟨(c4_locations 0 header417).1, ⟨by decide, by decide⟩, ?_⟩
  obtain ⟨loc, h1, h2, _, _⟩ :=
    (c4_locations 0 header417).2.2.2 0 0 (by decide) (by decide)
  exact ⟨loc, h1, h2⟩

/-- **C5.** `write_gain_at` (the spec's `write8`) changes at most the targeted
8-bit field: the length is unchanged; bytes other than `byte_offset` and
`byte_offset+1` are untouched; with `bit_offset = 0` only byte `byte_offset`
can change; with a nonzero `bit_offset` and a following byte in range, the top
`bit_offset` bits of byte `byte_offset` and the low `8 - bit_offset` bits of
byte `byte_offset+1` are preserved; and when byte `byte_offset` is the last
byte of the buffer, its top `bit_offset` bits are preserved, only the high
bits of the value that fit there are written (`v >>> bit_offset`), and every
other byte is unchanged (the remaining bits of `v` are dropped). -/
theorem c5_write_effect (data : List Nat) (loc : GainLocation) (v : Nat)
    (hsh : loc.bit_offset < 8) (hv : v < 256) :
    (write_gain_at data loc v).length = data.length ∧
    (∀ j, j ≠ loc.byte_offset → j ≠ loc.byte_offset + 1 →
      (write_gain_at data loc v).getD j 0 = data.getD j 0) ∧
    (loc.bit_offset = 0 → ∀ j, j ≠ loc.byte_offset →
      (write_gain_at data loc v).getD j 0 = data.getD j 0) ∧
    (loc.bit_offset ≠ 0 → loc.byte_offset + 1 < data.length →
      ((write_gain_at data loc v).getD loc.byte_offset 0 &&&
          ((255 <<< (8 - loc.bit_offset)) % 256) =
        data.getD loc.byte_offset 0 &&& ((255 <<< (8 - loc.bit_offset)) % 256)) ∧
      ((write_gain_at data loc v).getD (loc.byte_offset + 1) 0 &&&
          (255 >>> loc.bit_offset) =
        data.getD (loc.byte_offset + 1) 0 &&& (255 >>> loc.bit_offset))) ∧
    (loc.bit_offset ≠ 0 → loc.byte_offset + 1 = data.length →
      ((write_gain_at data loc v).getD loc.byte_offset 0 &&&
          ((255 <<< (8 - loc.bit_offset)) % 256) =
        data.getD loc.byte_offset 0 &&& ((255 <<< (8 - loc.bit_offset)) % 256)) ∧
      ((write_gain_at data loc v).getD loc.byte_offset 0 &&&
          (255 >>> loc.bit_offset) = v >>> loc.bit_offset) ∧
      ∀ j, j ≠ loc.byte_offset →
        (write_gain_at data loc v).getD j 0 = data.getD j 0) := by
  refine ⟨wga_length data loc v, fun j h0 h1 => wga_getD_ne data loc v j h0 h1,
    ?_, ?_, ?_⟩
  · intro hz j hj
    by_cases hoob : data.length ≤ loc.byte_offset
    · rw [wga_oob data loc v hoob]
    · rw [wga_aligned data loc v hz (by omega)]
      exact getD_set_ne _ _ _ _ (Ne.symm hj)
  · intro hz hbo
    constructor
    · rw [wga_getD_bo data loc v (by omega) hbo]
      exact byte_mask1 loc.bit_offset _ v (by omega) hv
    · rw [wga_getD_bo1 data loc v (by omega) hbo]
      exact byte_mask2 loc.bit_offset _ v
  · intro hz hlast
    rw [wga_tail data loc v hz hlast]
    refine ⟨?_, ?_, ?_⟩
    · rw [getD_set_self _ _ _ (by omega)]
      exact byte_mask1 loc.bit_offset _ v (by omega) hv
    · rw [getD_set_self _ _ _ (by omega)]
      exact byte_low1 loc.bit_offset _ v hv
    · intro j hj
      exact getD_set_ne _ _ _ _ (Ne.symm hj)

theorem c5_write_effect_witness :
    (write_gain_at [171, 205, 239, 18, 52] ⟨1, 4⟩ 153).length = 5 ∧
    (write_gain_at [171, 205, 239, 18, 52] ⟨1, 4⟩ 153).getD 0 0 = 171 ∧
    (write_gain_at [171, 205, 239, 18, 52] ⟨1, 4⟩ 153).getD 1 0 &&& 240 =
      205 &&& 240 := by
  have h := c5_write_effect [171, 205, 239, 18, 52] ⟨1, 4⟩ 153 (by decide) (by decide)
  refine ⟨?_, ?_, ?_⟩
  · rw [h.1]
    rfl
  · exact h.2.1 0 (by decide) (by decide)
  · exact (h.2.2.2.1 (by decide) (by decide)).1

/-- **C6.** For every slice of at least 4 bytes, `parse_header` succeeds
exactly when: byte 0 is 0xFF and the top 3 bits of byte 1 are set (sync),
the version bits are not the reserved value 1, the layer bits equal 1
(Layer III), the bitrate index is in 1..=14, and the sample-rate index is
not 3.  In particular `[0x00,0x00,0x00,0x00]` and `[0xFF,0xFF,0x90,0x00]`
yield no match. -/
theorem c6_parse_iff :
    (∀ l : List Nat, 4 ≤ l.length →
      ((parse_header l).isSome = true ↔
        (l.getD 0 0 = 255 ∧ l.getD 1 0 &&& 224 = 224 ∧
         (l.getD 1 0 >>> 3) &&& 3 ≠ 1 ∧ (l.getD 1 0 >>> 1) &&& 3 = 1 ∧
         1 ≤ (l.getD 2 0 >>> 4) &&& 15 ∧ (l.getD 2 0 >>> 4) &&& 15 ≤ 14 ∧
         (l.getD 2 0 >>> 2) &&& 3 ≠ 3))) ∧
    parse_header [0, 0, 0, 0] = none ∧
    parse_header [255, 255, 144, 0] = none := by
  refine ⟨?_, by decide, by decide⟩
  intro l hlen
  constructor
  · intro h
    unfold parse_header at h
    split at h
    · simp at h
    split at h
    · simp at h
    rename_i hlt h01
    push_neg at h01
    split at h
    · simp at h
    split at h
    · simp at h
    rename_i xv version hv xl layer hl
    split at h
    · simp at h
    rename_i hl3
    push_neg at hl3
    have hvne : (l.getD 1 0 >>> 3) &&& 3 ≠ 1 := by
      intro heq
      rw [(parse_version_none_iff (l.getD 1 0)).mpr heq] at hv
      exact Option.noConfusion hv
    have hlne : (l.getD 1 0 >>> 1) &&& 3 = 1 := by
      by_contra hne
      exact parse_layer_ne3 (l.getD 1 0) layer hl hne hl3
    clear hv hl hl3 xv xl
    cases version <;>
    · dsimp only at h
      by_cases hbr : (l.getD 2 0 >>> 4) &&& 15 = 0 ∨ (l.getD 2 0 >>> 4) &&& 15 = 15
      · rw [if_pos hbr] at h
        simp at h
      rw [if_neg hbr] at h
      push_neg at hbr
      by_cases hsr : (l.getD 2 0 >>> 2) &&& 3 = 3
      · rw [if_pos hsr] at h
        simp at h
      have hble : (l.getD 2 0 >>> 4) &&& 15 ≤ 15 := Nat.and_le_right
      exact ⟨h01.1, h01.2, hvne, hlne, by omega, by omega, hsr⟩
  · rintro ⟨h0, h1, h2v, h2l, hbi1, hbi14, hsr⟩
    have hlen' : ¬ l.length < 4 := by omega
    have h01 : ¬(l.getD 0 0 ≠ 255 ∨ l.getD 1 0 &&& 224 ≠ 224) := by
      push_neg
      exact ⟨h0, h1⟩
    have hble : (l.getD 2 0 >>> 4) &&& 15 ≤ 15 := Nat.and_le_right
    have hbr : ¬((l.getD 2 0 >>> 4) &&& 15 = 0 ∨ (l.getD 2 0 >>> 4) &&& 15 = 15) := by
      omega
    obtain ⟨v, hv⟩ := parse_version_isSome (l.getD 1 0) h2v
    simp only [parse_header, hlen', h01, hv,
      (parse_layer_some3_iff (l.getD 1 0)).mpr h2l, hbr, hsr, if_false,
      ite_self, ne_eq, not_true_eq_false, if_true]
    simp

theorem c6_parse_iff_witness :
    4 ≤ ([255, 255, 144, 0] : List Nat).length ∧
    ¬ ((parse_header [255, 255, 144, 0]).isSome = true) := by
  refine ⟨by decide, ?_⟩
  rw [c6_parse_iff.1 [255, 255, 144, 0] (by decide)]
  decide

/-- **C7.** For every header accepted by `parse_header`, the stored
`frame_size` equals `samplesPerFrame * bitrate_kbps * 125 / sample_rate`
(floor division) plus 1 when the padding bit is set, where `samplesPerFrame`
is 1152 for MPEG1 and 576 for MPEG2/2.5; and the concrete header bytes
`[0xFF, 0xFB, 0x90, 0x00]` parse to MPEG1, Layer III, 128 kbps, 44100 Hz,
Stereo. -/
theorem c7_frame_size :
    (∀ (l : List Nat) (h : FrameHeader), parse_header l = some h →
      h.frame_size = (match h.version with | .Mpeg1 => 1152 | _ => 576) *
        h.bitrate_kbps * 125 / h.sample_rate + (if h.padding then 1 else 0)) ∧
    ∃ h, parse_header [255, 251, 144, 0] = some h ∧
      h.version = MpegVersion.Mpeg1 ∧ h.layer = 3 ∧ h.bitrate_kbps = 128 ∧
      h.sample_rate = 44100 ∧ h.channel_mode = ChannelMode.Stereo := by
  refine ⟨parse_frame_size_eq, header417, by decide, rfl, rfl, rfl, rfl, rfl⟩

theorem c7_frame_size_witness :
    parse_header [255, 251, 144, 0] = some header417 ∧
    header417.frame_size = 1152 * header417.bitrate_kbps * 125 /
      header417.sample_rate + (if header417.padding then 1 else 0) := by
  refine ⟨by decide, ?_⟩
  have h := c7_frame_size.1 [255, 251, 144, 0] header417 (by decide)
  exact h

/-- **C8.** For every 5-byte buffer, every location whose byte offset has a
following byte within the buffer, every bit offset in 0..7, and every 8-bit
value `v`: `write_gain_at` of `v` followed by `read_gain_at` at the same
location returns `v` unchanged. -/
theorem c8_roundtrip (b0 b1 b2 b3 b4 : Nat)
    (hb0 : b0 < 256) (hb1 : b1 < 256) (hb2 : b2 < 256) (hb3 : b3 < 256)
    (hb4 : b4 < 256) (bo sh v : Nat) (hbo : bo + 1 < 5) (hsh : sh < 8)
    (hv : v < 256) :
    read_gain_at (write_gain_at [b0, b1, b2, b3, b4] ⟨bo, sh⟩ v) ⟨bo, sh⟩ = v :=
  wga_roundtrip [b0, b1, b2, b3, b4] ⟨bo, sh⟩ v (by simp; omega) hsh hv

theorem c8_roundtrip_witness :
    read_gain_at (write_gain_at [171, 205, 239, 18, 52] ⟨1, 4⟩ 153) ⟨1, 4⟩ = 153 :=
  c8_roundtrip 171 205 239 18 52 (by decide) (by decide) (by decide) (by decide)
    (by decide) 1 4 153 (by decide) (by decide) (by decide)

/-- **C9.** If the first 3 bytes are ASCII "ID3" (and at least the 10-byte
tag header is present), `skip_id3v2` returns `10 + size` where `size` is the
4-byte syncsafe integer (7 significant bits per byte, most significant byte
first) read at byte offset 6; without the signature it returns 0.  It total
(never fails). -/
theorem c9_skip (data : List Nat) :
    ((data.getD 0 0 = 73 ∧ data.getD 1 0 = 68 ∧ data.getD 2 0 = 51) →
      10 ≤ data.length →
      skip_id3v2 data = 10 + ((data.getD 6 0 % 128) * 2 ^ 21 +
        (data.getD 7 0 % 128) * 2 ^ 14 + (data.getD 8 0 % 128) * 2 ^ 7 +
        data.getD 9 0 % 128)) ∧
    (¬(data.getD 0 0 = 73 ∧ data.getD 1 0 = 68 ∧ data.getD 2 0 = 51) →
      skip_id3v2 data = 0) := by
  constructor
  · intro hsig hlen
    rw [skip_sig data (by omega) hsig]
    have hmask : ∀ x : Nat, x &&& 127 = x % 128 := by
      intro x
      have h := and_mask x 7 0
      simpa using h
    simp only [hmask]
    have h8 : data.getD 8 0 % 128 < 128 := Nat.mod_lt _ (by norm_num)
    have h9 : data.getD 9 0 % 128 < 128 := Nat.mod_lt _ (by norm_num)
    have h7 : data.getD 7 0 % 128 < 128 := Nat.mod_lt _ (by norm_num)
    rw [Nat.lor_assoc, Nat.lor_assoc]
    rw [shiftLeft_lor_eq_add (data.getD 8 0 % 128) (data.getD 9 0 % 128) 7
      (by omega)]
    rw [shiftLeft_lor_eq_add (data.getD 7 0 % 128)
      (data.getD 8 0 % 128 * 2 ^ 7 + data.getD 9 0 % 128) 14 (by omega)]
    rw [shiftLeft_lor_eq_add (data.getD 6 0 % 128)
      (data.getD 7 0 % 128 * 2 ^ 14 +
        (data.getD 8 0 % 128 * 2 ^ 7 + data.getD 9 0 % 128)) 21 (by omega)]
    omega
  · intro hnsig
    by_cases h10 : data.length < 10
    · exact skip_short data h10
    · exact skip_nosig data h10 hnsig

theorem c9_skip_witness :
    skip_id3v2 [73, 68, 51, 4, 0, 0, 0, 0, 0, 127] = 137 ∧
    skip_id3v2 [255, 251, 144, 0] = 0 := by
  constructor
  · rw [(c9_skip [73, 68, 51, 4, 0, 0, 0, 0, 0, 127]).1 (by decide) (by decide)]
    decide
  · exact (c9_skip [255, 251, 144, 0]).2 (by decide)

/-- **C10.** Every frame position `p` the walker validates parses to a header
whose computed gain locations all have `byte_offset ≥ p + side_info_offset + 3`
(so at least `p + 7` without CRC and `p + 9` with CRC); consequently
`apply_gain` never modifies the 4 frame-header bytes nor the 2 CRC bytes (when
present) of any frame it processes — every byte in `[p, p + side_info_offset + 3)`
is unchanged in its output. -/
theorem c10_header_safe (data : List Nat) (S : Int) (p : Nat)
    (hp : p ∈ (walkLoop S (data.length + 1) data (skip_id3v2 data)).2) :
    ∃ hdr, parse_header (data.drop p) = some hdr ∧
      (∀ loc ∈ calculate_gain_locations p hdr,
        p + hdr.side_info_offset + 3 ≤ loc.byte_offset) ∧
      ∀ i, p ≤ i → i < p + hdr.side_info_offset + 3 →
        (apply_gain data S).1.getD i 0 = data.getD i 0 := by
  obtain ⟨hdr, hph, hlocs, hpure⟩ :=
    walk_frames_spec S (data.length + 1) data (skip_id3v2 data) p hp
  refine ⟨hdr, hph, fun loc hl => (hlocs loc hl).1, ?_⟩
  intro i h1 h2
  by_cases hS : S = 0
  · simp [apply_gain, hS]
  · rw [apply_gain_fst data S hS]
    exact hpure i h1 h2

theorem c10_header_safe_witness :
    0 ∈ (walkLoop 1 (sampleFile.length + 1) sampleFile (skip_id3v2 sampleFile)).2 ∧
    ∃ hdr, parse_header (sampleFile.drop 0) = some hdr ∧
      (∀ loc ∈ calculate_gain_locations 0 hdr,
        0 + hdr.side_info_offset + 3 ≤ loc.byte_offset) ∧
      ∀ i, 0 ≤ i → i < 0 + hdr.side_info_offset + 3 →
        (apply_gain sampleFile 1).1.getD i 0 = sampleFile.getD i 0 :=
  ⟨by decide, c10_header_safe sampleFile 1 0 (by decide)⟩
